import Mathlib

/-!
# KeyRing: the encryption envelope of `public/js/keyring.js`

A shallow embedding of the envelope functions of `public/js/keyring.js`
(`aesDecrypt`, `aesEncrypt`, `jsonObjToTypedArray`, `KeyRing.decrypt`,
`KeyRing.encrypt`, `KeyRing.key`, `KeyRing.randomValuesArray`, `Firebase.write`),
of the two places that use them (`processAuthorization` and the click handler of
the synchronisation button), together with the ECMAScript operations they call (`JSON.stringify`,
`JSON.parse`, `Object.assign`, `Object.keys`, `String.fromCharCode`, stores into
a `Uint8Array`).

Modelling conventions.

* A JavaScript string is the list of its UTF-16 code units (`JSString`).
* A `Uint8Array` is the list of its elements (`Bytes`, elements in `Fin 256`).
* An object is the list of its own enumerable properties in insertion order
  (`Props`).  The engine's rule that integer-like keys are enumerated first is
  not modelled; it only concerns enumeration order.
* Numbers are IEEE doubles in JavaScript.  The model has the integer-valued
  ones (`JSON.num`); `JSON.parse` reports a literal with a fraction or an
  exponent, or beyond the safe-integer range, as `JSError.unmodelled`, so that
  no statement is made about such inputs.
* A thrown exception is the `error` case of `Except JSError`.
* The asmCrypto library (AES-GCM, SHA-256) is not part of the source file; its
  functions are fields of the parameter `Host`, next to the one ECMAScript
  conversion that is left abstract (a string stored into a `Uint8Array`).  The
  system random generator behind `asmCrypto.getRandomValues` is a parameter
  too (`RandomSource`).
-/

namespace KeyringJS

/-! ## Data model -/

/-- A JavaScript string: its UTF-16 code units. -/
abbrev JSString := List Nat

/-- One element of a `Uint8Array`. -/
abbrev Byte := Fin 256

/-- The contents of a `Uint8Array`. -/
abbrev Bytes := List Byte

/-- The UTF-16 code units of a list of characters. -/
def utf16 : List Char → JSString
  | [] => []
  | c :: r =>
    if c.toNat < 65536 then c.toNat :: utf16 r
    else (55296 + (c.toNat - 65536) / 1024) :: (56320 + (c.toNat - 65536) % 1024) :: utf16 r

/-- The code units of a string literal (used for property names and fixed texts). -/
def js (s : String) : JSString := utf16 s.toList

/-- Own enumerable properties of an object, in insertion order. -/
abbrev Props (α : Type) := List (JSString × α)

/-- Plain JSON data: what `JSON.parse` returns and what a Content is. -/
inductive JSON where
  | null : JSON
  | bool (b : Bool) : JSON
  | num (n : Int) : JSON
  | str (s : JSString) : JSON
  | arr (xs : List JSON) : JSON
  | obj (kvs : List (JSString × JSON)) : JSON

/-- A value held by a property of a data object: `undefined`, plain JSON data,
or a `Uint8Array`. -/
inductive JSValue where
  | undefined : JSValue
  | json (j : JSON) : JSValue
  | uint8 (b : Bytes) : JSValue

/-- A data object such as `{nonce: ..., contents: ...}`. -/
abbrev Obj := Props JSValue

/-- Exceptions.  `SyntaxError` is what `JSON.parse` throws, `TypeError` what the
engine throws for `Object.keys(null)` or for calling a non-function;
`SecurityError`, `IllegalArgumentError` and `IllegalStateError` stand for what
the asmCrypto library throws (`SecurityError` for a failed integrity check);
`unmodelled` marks an input that this model does not cover. -/
inductive JSError where
  | SyntaxError : JSError
  | TypeError : JSError
  | SecurityError : JSError
  | IllegalArgumentError : JSError
  | IllegalStateError : JSError
  | unmodelled : JSError
deriving DecidableEq

/-! ## Property lists -/

/-- Whether the object has an own property `k`. -/
def Props.has {α : Type} : Props α → JSString → Bool
  | [], _ => false
  | (k', _) :: r, k => if k' = k then true else Props.has r k

/-- The value of own property `k`, if there is one. -/
def Props.get? {α : Type} : Props α → JSString → Option α
  | [], _ => none
  | (k', v) :: r, k => if k' = k then some v else Props.get? r k

/-- Assignment `o[k] = v`: overwrite in place, or append a new property. -/
def Props.set {α : Type} : Props α → JSString → α → Props α
  | [], k, v => [(k, v)]
  | (k', v') :: r, k, v => if k' = k then (k', v) :: r else (k', v') :: Props.set r k v

/-- The operator `delete o[k]`. -/
def Props.delete {α : Type} : Props α → JSString → Props α
  | [], _ => []
  | (k', v') :: r, k => if k' = k then Props.delete r k else (k', v') :: Props.delete r k

/-- The own property names, in enumeration order. -/
def Props.keys {α : Type} (o : Props α) : List JSString := o.map Prod.fst

/-- Property read `o.k` on a data object: `undefined` when the property is absent. -/
def Obj.get (o : Obj) (k : JSString) : JSValue :=
  match Props.get? o k with
  | some v => v
  | none => JSValue.undefined

/-- An object built by defining the given properties one after the other (a
later duplicate overwrites the value and keeps the first position). -/
def Props.ofEntries {α : Type} (es : List (JSString × α)) : Props α :=
  es.foldl (fun o e => Props.set o e.1 e.2) []

/-- The call `Object.assign(target, source)`: every own enumerable property of
`source` is assigned on `target`. -/
def Object.assign (target source : Obj) : Obj :=
  source.foldl (fun o e => Props.set o e.1 e.2) target

/-! ## Numbers and strings -/

/-- Decimal digits (as code units) of a natural number; the first argument bounds
the number of digits. -/
def decimalDigits : Nat → Nat → JSString
  | 0, _ => []
  | f + 1, n => if n < 10 then [48 + n] else decimalDigits f (n / 10) ++ [48 + n % 10]

/-- The text of a natural number, as `Number.prototype.toString` gives it. -/
def natToString (n : Nat) : JSString := decimalDigits (n + 1) n

/-- The text of an integer-valued number. -/
def numberToString (n : Int) : JSString :=
  if n < 0 then 45 :: natToString n.natAbs else natToString n.natAbs

/-- A lower-case hexadecimal digit. -/
def hexDigit (d : Nat) : Nat := if d < 10 then 48 + d else 87 + d

/-- The escape `\uxxxx` of a code unit (ECMAScript UnicodeEscape). -/
def unicodeEscape (c : Nat) : JSString :=
  [92, 117, hexDigit (c / 4096 % 16), hexDigit (c / 256 % 16), hexDigit (c / 16 % 16),
    hexDigit (c % 16)]

/-- How `JSON.stringify` writes one code unit that is not a surrogate. -/
def quoteUnit (c : Nat) : JSString :=
  if c = 8 then [92, 98]
  else if c = 9 then [92, 116]
  else if c = 10 then [92, 110]
  else if c = 12 then [92, 102]
  else if c = 13 then [92, 114]
  else if c = 34 then [92, 34]
  else if c = 92 then [92, 92]
  else if c < 32 then unicodeEscape c
  else [c]

/-- A leading (high) surrogate. -/
def isLeadSurrogate (c : Nat) : Bool := decide (55296 ≤ c) && decide (c ≤ 56319)

/-- A trailing (low) surrogate. -/
def isTrailSurrogate (c : Nat) : Bool := decide (56320 ≤ c) && decide (c ≤ 57343)

/-- Whether the string starts with a trailing surrogate. -/
def startsWithTrail : JSString → Bool
  | [] => false
  | d :: _ => isTrailSurrogate d

/-- The body of ECMAScript QuoteJSONString: a surrogate pair is copied, a lone
surrogate is escaped, every other code unit goes through `quoteUnit`.  The flag
says that the unit at hand is the second half of a pair whose first half has
just been copied. -/
def quoteBody : Bool → JSString → JSString
  | _, [] => []
  | true, c :: rest => c :: quoteBody false rest
  | false, c :: rest =>
    if isLeadSurrogate c && startsWithTrail rest then c :: quoteBody true rest
    else if isLeadSurrogate c || isTrailSurrogate c then unicodeEscape c ++ quoteBody false rest
    else quoteUnit c ++ quoteBody false rest

/-- ECMAScript QuoteJSONString. -/
def quoteJSONString (s : JSString) : JSString := 34 :: (quoteBody false s ++ [34])

/-! ## `JSON.stringify` -/

mutual
/-- ECMAScript SerializeJSONProperty on plain JSON data, without indentation. -/
def JSON.serialize : JSON → JSString
  | .null => js "null"
  | .bool true => js "true"
  | .bool false => js "false"
  | .num n => numberToString n
  | .str s => quoteJSONString s
  | .arr [] => [91, 93]
  | .arr (x :: xs) => 91 :: (JSON.serialize x ++ JSON.serializeElements xs)
  | .obj [] => [123, 125]
  | .obj ((k, v) :: kvs) =>
    123 :: (quoteJSONString k ++ 58 :: (JSON.serialize v ++ JSON.serializeMembers kvs))
/-- The elements after the first, each preceded by a comma, and the closing bracket. -/
def JSON.serializeElements : List JSON → JSString
  | [] => [93]
  | x :: xs => 44 :: (JSON.serialize x ++ JSON.serializeElements xs)
/-- The members after the first, each preceded by a comma, and the closing brace. -/
def JSON.serializeMembers : List (JSString × JSON) → JSString
  | [] => [125]
  | (k, v) :: kvs =>
    44 :: (quoteJSONString k ++ 58 :: (JSON.serialize v ++ JSON.serializeMembers kvs))
end

/-- The index properties of a `Uint8Array`, as `JSON.stringify` enumerates them. -/
def indexEntries : Nat → Bytes → List (JSString × JSON)
  | _, [] => []
  | i, b :: bs => (natToString i, JSON.num (b.val : Nat)) :: indexEntries (i + 1) bs

/-- The call `JSON.stringify(value)`; `none` is the result `undefined`.  A
`Uint8Array` is serialized as the object of its index properties,
`\x7b"0":b0,"1":b1,...\x7d`. -/
def JSON.stringify : JSValue → Option JSString
  | .undefined => none
  | .json j => some (JSON.serialize j)
  | .uint8 b => some (JSON.serialize (JSON.obj (indexEntries 0 b)))

/-! ## `JSON.parse` -/

/-- JSON white space: tab, line feed, carriage return, space. -/
def isJSONWhitespace (c : Nat) : Bool := c = 9 || c = 10 || c = 13 || c = 32

/-- Skip leading white space. -/
def skipWs : JSString → JSString
  | [] => []
  | c :: r => if isJSONWhitespace c then skipWs r else c :: r

/-- A decimal digit. -/
def isDigit (c : Nat) : Bool := decide (48 ≤ c) && decide (c ≤ 57)

/-- The value of a hexadecimal digit, upper or lower case. -/
def hexValue (c : Nat) : Option Nat :=
  if 48 ≤ c ∧ c ≤ 57 then some (c - 48)
  else if 97 ≤ c ∧ c ≤ 102 then some (c - 87)
  else if 65 ≤ c ∧ c ≤ 70 then some (c - 55)
  else none

/-- The code unit written by the four hexadecimal digits of a `\u` escape. -/
def hex4 (a b c d : Nat) : Option Nat :=
  match hexValue a, hexValue b, hexValue c, hexValue d with
  | some x, some y, some z, some w => some (4096 * x + 256 * y + 16 * z + w)
  | _, _, _, _ => none

/-- The code unit denoted by a single-character escape. -/
def unescape (e : Nat) : Option Nat :=
  if e = 34 then some 34
  else if e = 92 then some 92
  else if e = 47 then some 47
  else if e = 98 then some 8
  else if e = 102 then some 12
  else if e = 110 then some 10
  else if e = 114 then some 13
  else if e = 116 then some 9
  else none

/-- Put a code unit in front of a parsed string. -/
def prepend (u : Nat) : Except JSError (JSString × JSString) → Except JSError (JSString × JSString)
  | .ok (s, rest) => .ok (u :: s, rest)
  | .error e => .error e

/-- A JSON string after its opening quote: the string and the input after the
closing quote. -/
def parseStringBody : JSString → Except JSError (JSString × JSString)
  | [] => .error .SyntaxError
  | c :: rest =>
    if c = 34 then .ok ([], rest)
    else if c = 92 then
      match rest with
      | [] => .error .SyntaxError
      | e :: rest1 =>
        if e = 117 then
          match rest1 with
          | a :: b :: c1 :: d :: rest2 =>
            match hex4 a b c1 d with
            | some u => prepend u (parseStringBody rest2)
            | none => .error .SyntaxError
          | _ => .error .SyntaxError
        else
          match unescape e with
          | some u => prepend u (parseStringBody rest1)
          | none => .error .SyntaxError
    else if c < 32 then .error .SyntaxError
    else prepend c (parseStringBody rest)

/-- Read decimal digits into an accumulator. -/
def parseDigits : Nat → JSString → Nat × JSString
  | acc, [] => (acc, [])
  | acc, c :: r => if isDigit c then parseDigits (10 * acc + (c - 48)) r else (acc, c :: r)

/-- The greatest safe integer, `2^53 - 1`. -/
def maxSafeInteger : Nat := 9007199254740991

/-- Whether the input goes on with a fraction or an exponent. -/
def startsFraction : JSString → Bool
  | [] => false
  | c :: _ => c = 46 || c = 101 || c = 69

/-- Close an integer literal: a literal that goes on with a fraction or an
exponent, or exceeds the safe range, is outside the model. -/
def finishNumber (n : Nat) (rest : JSString) : Except JSError (Nat × JSString) :=
  if startsFraction rest then .error .unmodelled
  else if maxSafeInteger < n then .error .unmodelled
  else .ok (n, rest)

/-- The integer part of a JSON number: `0`, or a non-zero digit and more digits. -/
def parseUnsigned : JSString → Except JSError (Nat × JSString)
  | [] => .error .SyntaxError
  | c :: r =>
    if c = 48 then finishNumber 0 r
    else if isDigit c then finishNumber (parseDigits 0 (c :: r)).1 (parseDigits 0 (c :: r)).2
    else .error .SyntaxError

/-- A JSON number with its optional minus sign. -/
def parseNumber : JSString → Except JSError (Int × JSString)
  | [] => .error .SyntaxError
  | c :: r =>
    if c = 45 then
      match parseUnsigned r with
      | .ok (n, rest) => .ok (-(n : Int), rest)
      | .error e => .error e
    else
      match parseUnsigned (c :: r) with
      | .ok (n, rest) => .ok ((n : Int), rest)
      | .error e => .error e

/-- Consume the given literal text. -/
def expectLit : JSString → JSString → Option JSString
  | [], input => some input
  | _ :: _, [] => none
  | l :: ls, c :: r => if l = c then expectLit ls r else none

/-- A member name with its colon: the name, and the input at the member value. -/
def parseKey : JSString → Except JSError (JSString × JSString)
  | [] => .error .SyntaxError
  | c :: r =>
    if c = 34 then
      match parseStringBody r with
      | .ok (k, r1) =>
        match skipWs r1 with
        | [] => .error .SyntaxError
        | d :: r2 => if d = 58 then .ok (k, skipWs r2) else .error .SyntaxError
      | .error e => .error e
    else .error .SyntaxError

mutual
/-- A JSON value at the head of the input (white space already skipped).  The
first argument bounds the number of nested calls; `JSON.parse` supplies more
than any text needs. -/
def parseValue : Nat → JSString → Except JSError (JSON × JSString)
  | 0, _ => .error .unmodelled
  | _ + 1, [] => .error .SyntaxError
  | f + 1, c :: r =>
    if c = 110 then
      match expectLit (js "ull") r with
      | some rest => .ok (JSON.null, rest)
      | none => .error .SyntaxError
    else if c = 116 then
      match expectLit (js "rue") r with
      | some rest => .ok (JSON.bool true, rest)
      | none => .error .SyntaxError
    else if c = 102 then
      match expectLit (js "alse") r with
      | some rest => .ok (JSON.bool false, rest)
      | none => .error .SyntaxError
    else if c = 34 then
      match parseStringBody r with
      | .ok (s, rest) => .ok (JSON.str s, rest)
      | .error e => .error e
    else if c = 91 then
      match skipWs r with
      | [] => .error .SyntaxError
      | d :: r1 =>
        if d = 93 then .ok (JSON.arr [], r1)
        else
          match parseValue f (d :: r1) with
          | .ok (x, r2) =>
            match parseElements f r2 with
            | .ok (xs, r3) => .ok (JSON.arr (x :: xs), r3)
            | .error e => .error e
          | .error e => .error e
    else if c = 123 then
      match skipWs r with
      | [] => .error .SyntaxError
      | d :: r1 =>
        if d = 125 then .ok (JSON.obj [], r1)
        else
          match parseKey (d :: r1) with
          | .ok (k, r2) =>
            match parseValue f r2 with
            | .ok (v, r3) =>
              match parseMembers f r3 with
              | .ok (ms, r4) => .ok (JSON.obj (Props.ofEntries ((k, v) :: ms)), r4)
              | .error e => .error e
            | .error e => .error e
          | .error e => .error e
    else if c = 45 || isDigit c then
      match parseNumber (c :: r) with
      | .ok (n, rest) => .ok (JSON.num n, rest)
      | .error e => .error e
    else .error .SyntaxError
/-- The rest of an array after an element: a closing bracket, or a comma and
more elements. -/
def parseElements : Nat → JSString → Except JSError (List JSON × JSString)
  | 0, _ => .error .unmodelled
  | f + 1, input =>
    match skipWs input with
    | [] => .error .SyntaxError
    | d :: r =>
      if d = 93 then .ok ([], r)
      else if d = 44 then
        match parseValue f (skipWs r) with
        | .ok (x, r1) =>
          match parseElements f r1 with
          | .ok (xs, r2) => .ok (x :: xs, r2)
          | .error e => .error e
        | .error e => .error e
      else .error .SyntaxError
/-- The rest of an object after a member: a closing brace, or a comma and more
members. -/
def parseMembers : Nat → JSString → Except JSError (List (JSString × JSON) × JSString)
  | 0, _ => .error .unmodelled
  | f + 1, input =>
    match skipWs input with
    | [] => .error .SyntaxError
    | d :: r =>
      if d = 125 then .ok ([], r)
      else if d = 44 then
        match parseKey (skipWs r) with
        | .ok (k, r1) =>
          match parseValue f r1 with
          | .ok (v, r2) =>
            match parseMembers f r2 with
            | .ok (ms, r3) => .ok ((k, v) :: ms, r3)
            | .error e => .error e
          | .error e => .error e
        | .error e => .error e
      else .error .SyntaxError
end

/-- The call `JSON.parse(text)` on a string: one JSON value surrounded by white
space, and nothing else. -/
def JSON.parse (text : JSString) : Except JSError JSON :=
  match parseValue (text.length + 1) (skipWs text) with
  | .ok (v, rest) =>
    match skipWs rest with
    | [] => .ok v
    | _ :: _ => .error .SyntaxError
  | .error e => .error e

/-! ## Conversions -/

/-- Whether the value is `null`. -/
def JSON.isNull : JSON → Bool
  | .null => true
  | _ => false

/-- Append a text to a text that may have failed to be computed. -/
def appendText (a : JSString) : Except JSError JSString → Except JSError JSString
  | .ok b => .ok (a ++ b)
  | .error e => .error e

/-- The text that follows, when the first one was computed. -/
def thenText : Except JSError JSString → (JSString → Except JSError JSString) →
    Except JSError JSString
  | .ok a, k => k a
  | .error e, _ => .error e

mutual
/-- ECMAScript ToString on plain JSON data.  An array gives its elements joined by
commas (`Array.prototype.join`), `null` elements giving the empty text.  An
object gives `[object Object]`, unless it has an own property `toString`: that
property, being data, hides `Object.prototype.toString`, no method yields a
primitive, and ToPrimitive throws a `TypeError`. -/
def JSON.toStringJS : JSON → Except JSError JSString
  | .null => .ok (js "null")
  | .bool true => .ok (js "true")
  | .bool false => .ok (js "false")
  | .num n => .ok (numberToString n)
  | .str s => .ok s
  | .arr [] => .ok []
  | .arr (x :: xs) =>
    thenText (if x.isNull then .ok [] else JSON.toStringJS x)
      (fun a => appendText a (JSON.joinRest xs))
  | .obj kvs => if Props.has kvs (js "toString") then .error .TypeError
    else .ok (js "[object Object]")
/-- The rest of `Array.prototype.join(",")`: every further element preceded by a
comma. -/
def JSON.joinRest : List JSON → Except JSError JSString
  | [] => .ok []
  | x :: xs =>
    thenText (if x.isNull then .ok [] else JSON.toStringJS x)
      (fun a => appendText (44 :: a) (JSON.joinRest xs))
end

/-- The text of a `Uint8Array`: its elements joined by commas. -/
def joinBytes : Bytes → JSString
  | [] => []
  | [b] => natToString b.val
  | b :: c :: r => natToString b.val ++ 44 :: joinBytes (c :: r)

/-- ECMAScript ToString on a property value. -/
def JSValue.toStringJS : JSValue → Except JSError JSString
  | .undefined => .ok (js "undefined")
  | .json j => j.toStringJS
  | .uint8 b => .ok (joinBytes b)

/-- The call `JSON.parse(value)`: the argument is converted to a string first. -/
def JSON.parseValue (v : JSValue) : Except JSError JSON :=
  match v.toStringJS with
  | .error e => .error e
  | .ok text => JSON.parse text

/-- The call `String.fromCharCode.apply(null, bytes)`: one code unit per byte. -/
def fromCharCode (bytes : Bytes) : JSString := bytes.map (fun b => b.val)

/-- What the page's environment provides beyond the source file. -/
structure Host where
  /-- The function `asmCrypto.AES_GCM.encrypt(data, key, nonce, adata, tagSize)`; the data
  is a string or `undefined` (`none`), `adata` is bytes or `undefined`. -/
  AES_GCM_encrypt : Option JSString → Bytes → Bytes → Option Bytes → Nat → Except JSError Bytes
  /-- The function `asmCrypto.AES_GCM.decrypt(data, key, nonce, adata, tagSize)`. -/
  AES_GCM_decrypt : Bytes → Bytes → Bytes → Option Bytes → Nat → Except JSError Bytes
  /-- The function `asmCrypto.SHA256.bytes(string)`. -/
  SHA256_bytes : JSString → Except JSError Bytes
  /-- ECMAScript ToUint8 of StringToNumber of a string (floating point, left abstract). -/
  stringToUint8 : JSString → Byte

/-- ECMAScript ToUint8 of an integer-valued number: the value modulo 256. -/
def intToUint8 (n : Int) : Byte := Fin.ofNat (n % 256).toNat

/-- The byte stored by `arr[i] = v` into a `Uint8Array`: ToUint8(ToNumber(v));
`none` is `undefined`.  An array is converted through its text; an object is not
a number (`NaN`, stored as `0`) unless the conversion throws, see
`JSON.toStringJS`. -/
def toUint8 (host : Host) : Option JSON → Except JSError Byte
  | none => .ok 0
  | some .null => .ok 0
  | some (.bool true) => .ok 1
  | some (.bool false) => .ok 0
  | some (.num n) => .ok (intToUint8 n)
  | some (.str s) => .ok (host.stringToUint8 s)
  | some (.arr xs) =>
    match (JSON.arr xs).toStringJS with
    | .ok text => .ok (host.stringToUint8 text)
    | .error e => .error e
  | some (.obj kvs) =>
    match (JSON.obj kvs).toStringJS with
    | .ok _ => .ok 0
    | .error e => .error e

/-- The call `Object.keys(value)` on plain JSON data. -/
def Object.keys : JSON → Except JSError (List JSString)
  | .null => .error .TypeError
  | .bool _ => .ok []
  | .num _ => .ok []
  | .str s => .ok ((List.range s.length).map natToString)
  | .arr xs => .ok ((List.range xs.length).map natToString)
  | .obj kvs => .ok (Props.keys kvs)

/-- The property read `obj[i]` for a number `i`; `none` is `undefined`. -/
def getIndex : JSON → Nat → Option JSON
  | .str s, i => (s.get? i).map (fun c => JSON.str [c])
  | .arr xs, i => xs.get? i
  | .obj kvs, i => Props.get? kvs (natToString i)
  | _, _ => none

/-! ## The source functions -/

/-- Source `aesDecrypt(encrypted, key, nonce)`. -/
def aesDecrypt (host : Host) (encrypted key nonce : Bytes) : Except JSError Bytes :=
  host.AES_GCM_decrypt encrypted key nonce none 16

/-- Source `aesEncrypt(plaintext, key, nonce)`. -/
def aesEncrypt (host : Host) (plaintext : Option JSString) (key nonce : Bytes) :
    Except JSError Bytes :=
  host.AES_GCM_encrypt plaintext key nonce none 16

/-- The loop `for (...; i < length; i++) \x7b arr[i] = obj[i]; \x7d` of
`jsonObjToTypedArray`, from index `i` on, for the given number of turns: the
bytes stored, or the error thrown by a conversion. -/
def fillFrom (host : Host) (obj : JSON) : Nat → Nat → Except JSError Bytes
  | _, 0 => .ok []
  | i, turns + 1 =>
    match toUint8 host (getIndex obj i) with
    | .error e => .error e
    | .ok b =>
      match fillFrom host obj (i + 1) turns with
      | .error e => .error e
      | .ok bs => .ok (b :: bs)

/-- Source `jsonObjToTypedArray(obj)`: a `Uint8Array` of `Object.keys(obj).length`
elements, element `i` being `obj[i]`. -/
def jsonObjToTypedArray (host : Host) (obj : JSON) : Except JSError Bytes :=
  match Object.keys obj with
  | .error e => .error e
  | .ok keys => fillFrom host obj 0 keys.length

/-- The expression `jsonObjToTypedArray(JSON.parse(data.name))` of
`KeyRing.decrypt`, used for `data.nonce` and for `data.contents`. -/
def fieldBytes (host : Host) (data : Obj) (name : JSString) : Except JSError Bytes :=
  match JSON.parseValue (Obj.get data name) with
  | .error e => .error e
  | .ok parsed => jsonObjToTypedArray host parsed

/-- Source `KeyRing.decrypt(data, key)`; `none` is the record `null`. -/
def KeyRing.decrypt (host : Host) (data : Option Obj) (key : Bytes) : Except JSError Obj :=
  match data with
  | none => .ok [(js "contents", JSValue.json (JSON.obj []))]
  | some data =>
    match fieldBytes host data (js "nonce") with
    | .error e => .error e
    | .ok nonce =>
      match fieldBytes host data (js "contents") with
      | .error e => .error e
      | .ok contents =>
        let obj := Object.assign []
          [(js "nonce", JSValue.uint8 nonce), (js "contents", JSValue.uint8 contents)]
        match aesDecrypt host contents key nonce with
        | .error e => .error e
        | .ok decr =>
          match JSON.parse (fromCharCode decr) with
          | .error e => .error e
          | .ok parsed => .ok (Props.set obj (js "contents") (JSValue.json parsed))

/-- Source `allowedProperties`. -/
def allowedProperties : List JSString := [js "nonce", js "contents"]

/-- The method `Array.prototype.indexOf`: the first index of the element, or `-1`. -/
def indexOf : List JSString → JSString → Int
  | [], _ => -1
  | x :: xs, y => if x = y then 0 else if indexOf xs y < 0 then -1 else indexOf xs y + 1

/-- One turn of the `for (var property in obj)` loop of `KeyRing.encrypt`.  A
property deleted before its turn is not visited.  When `obj` has an own property
`hasOwnProperty` the call `obj.hasOwnProperty(property)` is a call of a value
that is not a function.  Otherwise the call yields `true` for the own property
at hand, and the statement `delete obj.property` removes the property whose
name is the text `property`. -/
def stripTurn (obj : Obj) (property : JSString) : Except JSError Obj :=
  if !Props.has obj property then .ok obj
  else if Props.has obj (js "hasOwnProperty") then .error .TypeError
  else if indexOf allowedProperties property < 0 then .ok (Props.delete obj (js "property"))
  else .ok obj

/-- The `for (var property in obj)` loop of `KeyRing.encrypt` over the property
names of `obj`. -/
def stripLoop : List JSString → Obj → Except JSError Obj
  | [], obj => .ok obj
  | property :: more, obj =>
    match stripTurn obj property with
    | .ok obj1 => stripLoop more obj1
    | .error e => .error e

/-- The system random generator as one call of `asmCrypto.getRandomValues` sees
it: for an array of `n` elements either the error thrown (with `allowWeak`
unset there is no fallback) or the byte written at each index. -/
structure RandomSource where
  /-- The outcome of a request for `n` bytes. -/
  draw : Nat → Except JSError (Nat → Byte)

/-- The call `new Uint8Array(n)`: `n` zero bytes. -/
def newUint8Array (n : Nat) : Bytes := List.replicate n 0

/-- The call `asmCrypto.getRandomValues(array)`: the array is filled in place and
returned. -/
def getRandomValues (rng : RandomSource) (array : Bytes) : Except JSError Bytes :=
  match rng.draw array.length with
  | .ok f => .ok ((List.range array.length).map f)
  | .error e => .error e

/-- The expression `length || d` for a length that is `undefined` (`none`) or an
unsigned integer: the right operand when the left one is `undefined` or `0`. -/
def orDefault : Option Nat → Nat → Nat
  | none, d => d
  | some 0, d => d
  | some (n + 1), _ => n + 1

/-- Source `KeyRing.randomValuesArray(length)`; `none` is an omitted length. -/
def KeyRing.randomValuesArray (rng : RandomSource) (length : Option Nat) :
    Except JSError Bytes :=
  getRandomValues rng (newUint8Array (orDefault length 32))

/-- Source `KeyRing.encrypt(data, key)`.  A data object with an own property
`__proto__` would have `Object.assign` change the prototype of the copy; that is
outside the model.  The read `obj.nonce` in the call of `aesEncrypt` follows the
assignment to `obj.nonce` and yields the array just assigned. -/
def KeyRing.encrypt (host : Host) (rng : RandomSource) (data : Obj) (key : Bytes) :
    Except JSError Obj :=
  if Props.has data (js "__proto__") then .error .unmodelled
  else
    let obj := Object.assign [] data
    match stripLoop (Props.keys obj) obj with
    | .error e => .error e
    | .ok obj1 =>
      match KeyRing.randomValuesArray rng none with
      | .error e => .error e
      | .ok nonce =>
        let obj2 := Props.set obj1 (js "nonce") (JSValue.uint8 nonce)
        match aesEncrypt host (JSON.stringify (Obj.get obj2 (js "contents"))) key nonce with
        | .error e => .error e
        | .ok encrypted => .ok (Props.set obj2 (js "contents") (JSValue.uint8 encrypted))

/-- Source `KeyRing.key(string)`. -/
def KeyRing.key (host : Host) (string : JSString) : Except JSError Bytes :=
  host.SHA256_bytes string

/-- The result of `JSON.stringify` as a property value. -/
def stringOrUndefined : Option JSString → JSValue
  | none => JSValue.undefined
  | some s => JSValue.json (JSON.str s)

/-- Source `Firebase.write(data)` for a signed-in user: the record handed to
`Firebase.db.ref(uid).set`.  The unused local `json = JSON.stringify(data)` has
no effect. -/
def Firebase.write (data : Obj) : Obj :=
  [(js "nonce", stringOrUndefined (JSON.stringify (Obj.get data (js "nonce")))),
   (js "contents", stringOrUndefined (JSON.stringify (Obj.get data (js "contents"))))]

/-! ## Predicates used in the statements -/

/-- Whether a number literal may end here: the input is over, or goes on with a
code unit that is neither a digit nor the start of a fraction or exponent. -/
def numEnd : JSString → Bool
  | [] => true
  | c :: _ => !isDigit c && !(c = 46 || c = 101 || c = 69)

mutual
/-- Well-formed JSON data: numbers are safe integers and the member names of every
object are distinct. -/
def JSON.WellFormed : JSON → Prop
  | .null => True
  | .bool _ => True
  | .num n => n.natAbs ≤ maxSafeInteger
  | .str _ => True
  | .arr xs => JSON.WellFormedList xs
  | .obj kvs => (Props.keys kvs).Nodup ∧ JSON.WellFormedMembers kvs
/-- Every element is well formed. -/
def JSON.WellFormedList : List JSON → Prop
  | [] => True
  | x :: xs => JSON.WellFormed x ∧ JSON.WellFormedList xs
/-- Every member value is well formed. -/
def JSON.WellFormedMembers : List (JSString × JSON) → Prop
  | [] => True
  | (_, v) :: kvs => JSON.WellFormed v ∧ JSON.WellFormedMembers kvs
end


/-! ## SHA-256 over UTF-8, as the specification describes `asmCrypto.SHA256.bytes` -/

/-- The UTF-8 bytes of a code point. -/
def utf8OfCodePoint (cp : Nat) : List Nat :=
  if cp < 128 then [cp]
  else if cp < 2048 then [192 + cp / 64, 128 + cp % 64]
  else if cp < 65536 then [224 + cp / 4096, 128 + cp / 64 % 64, 128 + cp % 64]
  else [240 + cp / 262144 % 8, 128 + cp / 4096 % 64, 128 + cp / 64 % 64, 128 + cp % 64]

/-- The first code unit of a string, `0` for the empty string. -/
def headUnit : JSString → Nat
  | [] => 0
  | d :: _ => d

/-- The UTF-8 bytes of a string of UTF-16 code units: a surrogate pair is one code
point, a lone surrogate is replaced by U+FFFD.  The flag says that the unit at
hand is the second half of a pair already encoded. -/
def utf8Units : Bool → JSString → List Nat
  | _, [] => []
  | true, _ :: rest => utf8Units false rest
  | false, c :: rest =>
    if isLeadSurrogate c && startsWithTrail rest then
      utf8OfCodePoint (65536 + (c - 55296) * 1024 + (headUnit rest - 56320)) ++ utf8Units true rest
    else if isLeadSurrogate c || isTrailSurrogate c then
      utf8OfCodePoint 65533 ++ utf8Units false rest
    else utf8OfCodePoint c ++ utf8Units false rest

/-- The UTF-8 encoding of a string. -/
def utf8Encode (s : JSString) : List Nat := utf8Units false s

namespace SHA256

/-- Words are 32 bits. -/
def wordSize : Nat := 4294967296

/-- Addition modulo `2^32`. -/
def add32 (a b : Nat) : Nat := (a + b) % wordSize

/-- Rotation to the right of a 32-bit word. -/
def rotr (n x : Nat) : Nat := (x / 2 ^ n + x % 2 ^ n * 2 ^ (32 - n)) % wordSize

/-- Shift to the right. -/
def shr (n x : Nat) : Nat := x / 2 ^ n

/-- Bitwise complement of a 32-bit word. -/
def not32 (x : Nat) : Nat := (wordSize - 1) - x % wordSize

/-- The function Ch of FIPS 180-4. -/
def ch (x y z : Nat) : Nat := Nat.xor (Nat.land x y) (Nat.land (not32 x) z)

/-- The function Maj of FIPS 180-4. -/
def maj (x y z : Nat) : Nat := Nat.xor (Nat.xor (Nat.land x y) (Nat.land x z)) (Nat.land y z)

/-- The function Sigma0. -/
def bigSigma0 (x : Nat) : Nat := Nat.xor (Nat.xor (rotr 2 x) (rotr 13 x)) (rotr 22 x)

/-- The function Sigma1. -/
def bigSigma1 (x : Nat) : Nat := Nat.xor (Nat.xor (rotr 6 x) (rotr 11 x)) (rotr 25 x)

/-- The function sigma0. -/
def smallSigma0 (x : Nat) : Nat := Nat.xor (Nat.xor (rotr 7 x) (rotr 18 x)) (shr 3 x)

/-- The function sigma1. -/
def smallSigma1 (x : Nat) : Nat := Nat.xor (Nat.xor (rotr 17 x) (rotr 19 x)) (shr 10 x)

/-- The round constants. -/
def K : List Nat :=
  [0x428a2f98, 0x71374491, 0xb5c0fbcf, 0xe9b5dba5, 0x3956c25b, 0x59f111f1, 0x923f82a4, 0xab1c5ed5,
   0xd807aa98, 0x12835b01, 0x243185be, 0x550c7dc3, 0x72be5d74, 0x80deb1fe, 0x9bdc06a7, 0xc19bf174,
   0xe49b69c1, 0xefbe4786, 0x0fc19dc6, 0x240ca1cc, 0x2de92c6f, 0x4a7484aa, 0x5cb0a9dc, 0x76f988da,
   0x983e5152, 0xa831c66d, 0xb00327c8, 0xbf597fc7, 0xc6e00bf3, 0xd5a79147, 0x06ca6351, 0x14292967,
   0x27b70a85, 0x2e1b2138, 0x4d2c6dfc, 0x53380d13, 0x650a7354, 0x766a0abb, 0x81c2c92e, 0x92722c85,
   0xa2bfe8a1, 0xa81a664b, 0xc24b8b70, 0xc76c51a3, 0xd192e819, 0xd6990624, 0xf40e3585, 0x106aa070,
   0x19a4c116, 0x1e376c08, 0x2748774c, 0x34b0bcb5, 0x391c0cb3, 0x4ed8aa4a, 0x5b9cca4f, 0x682e6ff3,
   0x748f82ee, 0x78a5636f, 0x84c87814, 0x8cc70208, 0x90befffa, 0xa4506ceb, 0xbef9a3f7, 0xc67178f2]

/-- The eight working words. -/
structure State where
  /-- Word a. -/
  a : Nat
  /-- Word b. -/
  b : Nat
  /-- Word c. -/
  c : Nat
  /-- Word d. -/
  d : Nat
  /-- Word e. -/
  e : Nat
  /-- Word f. -/
  f : Nat
  /-- Word g. -/
  g : Nat
  /-- Word h. -/
  h : Nat

/-- The initial hash value. -/
def initial : State :=
  ⟨0x6a09e667, 0xbb67ae85, 0x3c6ef372, 0xa54ff53a, 0x510e527f, 0x9b05688c, 0x1f83d9ab, 0x5be0cd19⟩

/-- The message with its padding: a `1` bit, zero bits, and the bit length on 64
bits, to a multiple of 64 bytes. -/
def pad (msg : List Nat) : List Nat :=
  msg ++ 128 :: List.replicate ((119 - msg.length % 64) % 64) 0
    ++ (List.range 8).map (fun i => (msg.length * 8) / 2 ^ (8 * (7 - i)) % 256)

/-- Big-endian words of a block of bytes. -/
def wordsOf : List Nat → List Nat
  | a :: b :: c :: d :: rest => (a * 16777216 + b * 65536 + c * 256 + d) :: wordsOf rest
  | _ => []

/-- Extend the message schedule by the given number of words. -/
def extend : Nat → List Nat → List Nat
  | 0, w => w
  | n + 1, w =>
    let t := w.length
    extend n (w ++ [add32 (add32 (smallSigma1 (w.getD (t - 2) 0)) (w.getD (t - 7) 0))
      (add32 (smallSigma0 (w.getD (t - 15) 0)) (w.getD (t - 16) 0))])

/-- One round of the compression function. -/
def round (s : State) (kw : Nat × Nat) : State :=
  let t1 := add32 (add32 (add32 s.h (bigSigma1 s.e)) (ch s.e s.f s.g)) (add32 kw.1 kw.2)
  let t2 := add32 (bigSigma0 s.a) (maj s.a s.b s.c)
  ⟨add32 t1 t2, s.a, s.b, s.c, add32 s.d t1, s.e, s.f, s.g⟩

/-- The compression function on one 64-byte block. -/
def compress (s : State) (block : List Nat) : State :=
  let r := (K.zip (extend 48 (wordsOf block))).foldl round s
  ⟨add32 s.a r.a, add32 s.b r.b, add32 s.c r.c, add32 s.d r.d, add32 s.e r.e, add32 s.f r.f,
    add32 s.g r.g, add32 s.h r.h⟩

/-- Hash the given number of 64-byte blocks. -/
def hashBlocks : Nat → State → List Nat → State
  | 0, s, _ => s
  | n + 1, s, bytes => hashBlocks n (compress s (bytes.take 64)) (bytes.drop 64)

/-- The four bytes of a word, most significant first. -/
def bytesOfWord (w : Nat) : Bytes :=
  [Fin.ofNat (w / 16777216), Fin.ofNat (w / 65536), Fin.ofNat (w / 256), Fin.ofNat w]

/-- The SHA-256 digest of a byte sequence (FIPS 180-4). -/
def digest (msg : List Nat) : Bytes :=
  let s := hashBlocks ((pad msg).length / 64) initial (pad msg)
  bytesOfWord s.a ++ bytesOfWord s.b ++ bytesOfWord s.c ++ bytesOfWord s.d ++ bytesOfWord s.e
    ++ bytesOfWord s.f ++ bytesOfWord s.g ++ bytesOfWord s.h

/-- Modelled from the spec: `asmCrypto.SHA256.bytes` is absent from the source; "a
256-bit one-way digest (SHA-256 semantics) of the UTF-8 bytes of the input string",
returned as "the raw 32-byte digest". -/
def bytes (string : JSString) : Bytes := digest (utf8Encode string)

end SHA256

/-! ## Assumptions on the library, and stand-ins for concrete evaluation -/

/-- The AES-GCM functions of the host invert each other on what `KeyRing` gives
them: for a text of code units up to 255, a 32-byte key and a 32-byte nonce,
encryption returns a ciphertext from which decryption recovers, byte for code
unit, the text. -/
def Host.AeadCorrect (host : Host) : Prop :=
  ∀ (s : JSString) (key nonce : Bytes), (∀ u ∈ s, u < 256) → key.length = 32 →
    nonce.length = 32 →
    ∃ ct pt, host.AES_GCM_encrypt (some s) key nonce none 16 = .ok ct ∧
      host.AES_GCM_decrypt ct key nonce none 16 = .ok pt ∧ fromCharCode pt = s

/-- One byte per code unit; no result when a code unit exceeds 255. -/
def bytesOfString? : JSString → Option Bytes
  | [] => some []
  | c :: r =>
    if h : c < 256 then
      match bytesOfString? r with
      | some bs => some (⟨c, h⟩ :: bs)
      | none => none
    else none

/-- A 16-byte tag for the stand-in cipher: a checksum of key, nonce and text. -/
def standInTag (key nonce pt : Bytes) : Bytes :=
  List.replicate 16 ((key ++ nonce ++ pt).foldl (fun a b => a + b) 1)

/-- Whether the key has an AES key length. -/
def validKeyLength (key : Bytes) : Bool :=
  key.length = 16 || key.length = 24 || key.length = 32

/-- Stand-in for authenticated encryption: the text followed by its tag.  It has
the input/output behaviour of an AEAD (tag of 16 bytes, rejection of what does
not verify) and none of its secrecy; it only serves to run the functions on
concrete inputs. -/
def standInSeal (pt key nonce : Bytes) : Except JSError Bytes :=
  if validKeyLength key then .ok (pt ++ standInTag key nonce pt)
  else .error .IllegalArgumentError

/-- Stand-in for authenticated decryption: the text, when the tag verifies. -/
def standInOpen (ct key nonce : Bytes) : Except JSError Bytes :=
  if validKeyLength key then
    if ct.length < 16 then .error .IllegalArgumentError
    else if ct.drop (ct.length - 16) = standInTag key nonce (ct.take (ct.length - 16)) then
      .ok (ct.take (ct.length - 16))
    else .error .SecurityError
  else .error .IllegalArgumentError

/-- A host whose library converts a string to bytes one byte per code unit and
rejects a code unit above 255, with the stand-in cipher and the digest of the
specification. -/
def binaryHost : Host where
  AES_GCM_encrypt := fun data key nonce _ _ =>
    match data with
    | none => .error .IllegalArgumentError
    | some s =>
      match bytesOfString? s with
      | none => .error .IllegalArgumentError
      | some pt => standInSeal pt key nonce
  AES_GCM_decrypt := fun ct key nonce _ _ => standInOpen ct key nonce
  SHA256_bytes := fun s => .ok (SHA256.bytes s)
  stringToUint8 := fun _ => 0

/-- A random source that answers every request, with a fixed sequence of bytes. -/
def sampleRandom : RandomSource where
  draw := fun _ => .ok (fun i => Fin.ofNat (37 * i + 11))

/-- A 32-byte key. -/
def sampleKey : Bytes := (List.range 32).map (fun i => Fin.ofNat (3 * i + 1))

/-- The content of the specification's scenario: one group with one entry. -/
def sampleContent : JSON :=
  JSON.obj [(js "email", JSON.obj [(js "gmail", JSON.str (js "secret1"))])]

/-- A data object that carries a property besides `nonce` and `contents`. -/
def extraData : Obj :=
  [(js "contents", JSValue.json sampleContent), (js "extra", JSValue.json (JSON.str (js "x")))]

/-- A 32-byte nonce. -/
def sampleNonce : Bytes := (List.range 32).map (fun i => Fin.ofNat (5 * i + 2))

/-- A stored record whose contents is what the stand-in cipher produces for the
empty text under `sampleKey` and `sampleNonce`: the 16-byte tag alone. -/
def emptyTextRecord : Obj :=
  Firebase.write [(js "nonce", JSValue.uint8 sampleNonce),
    (js "contents", JSValue.uint8 (standInTag sampleKey sampleNonce []))]

/-- A stored record whose contents does not verify under `sampleKey`: the two
bytes of the text `\x7b\x7d` followed by sixteen zero bytes, which are not its tag. -/
def tamperedRecord : Obj :=
  Firebase.write [(js "nonce", JSValue.uint8 sampleNonce),
    (js "contents", JSValue.uint8 (123 :: 125 :: List.replicate 16 0))]

/-- A data object as `KeyRing.decrypt` returns it: a nonce and a content. -/
def sampleData : Obj :=
  [(js "nonce", JSValue.uint8 sampleNonce), (js "contents", JSValue.json sampleContent)]

/-- The composition on which the round trip is stated: `KeyRing.encrypt`, the
record as `Firebase.write` stores it, `KeyRing.decrypt` of that record, and the
`contents` of the result. -/
def roundTrip (host : Host) (rng : RandomSource) (data : Obj) (key : Bytes) :
    Except JSError JSValue :=
  match KeyRing.encrypt host rng data key with
  | .error e => .error e
  | .ok record =>
    match KeyRing.decrypt host (some (Firebase.write record)) key with
    | .error e => .error e
    | .ok out => .ok (Obj.get out (js "contents"))

/-- What `Ui.createDataForm(data, key)` closes over: the data object and the key
of the signed-in user. -/
structure Session where
  /-- The data object shown in the form. -/
  data : Obj
  /-- The key of the session. -/
  key : Bytes

/-- The expression `KeyRing.key(uid + email + password)` of `processAuthorization`;
`uid` is `firebase.auth().currentUser.uid`. -/
def sessionKey (host : Host) (uid email password : JSString) : Except JSError Bytes :=
  KeyRing.key host ((uid ++ email) ++ password)

/-- Source `processAuthorization`, once the authorization has succeeded: the key
is derived, the stored record is read (`stored`, `none` for `null`), it is
decrypted under the key, and the data form is created with the data and the
key.  The spinners shown in between have no part in it. -/
def processAuthorization (host : Host) (uid email password : JSString) (stored : Option Obj) :
    Except JSError Session :=
  match sessionKey host uid email password with
  | .error e => .error e
  | .ok key =>
    match KeyRing.decrypt host stored key with
    | .error e => .error e
    | .ok data => .ok ⟨data, key⟩

/-- The click handler of the button `Encrypt & Sync Data` from the call of
`KeyRing.encrypt` on: the session's data object, as the form has just updated
it, is encrypted under the session's key, the result is handed to
`Firebase.write`, and the form is created again with the same data object and
key.  The result is the record given to the remote store and the session of the
new form. -/
def syncClick (host : Host) (rng : RandomSource) (session : Session) :
    Except JSError (Obj × Session) :=
  match KeyRing.encrypt host rng session.data session.key with
  | .error e => .error e
  | .ok encr => .ok (Firebase.write encr, ⟨session.data, session.key⟩)

/-! ## Objects in a heap: `KeyRing.encrypt` with its effects

In the definitions above an object is a value.  To state what `KeyRing.encrypt`
does to the object it is given, objects live here in a heap and are named by
their address; every statement of the function is a transition of the heap.
Property values stay values: the function reads `obj.contents` and assigns the
property, it never changes a nested object. -/

/-- The address of an object. -/
abbrev Ref := Nat

/-- The objects allocated so far, by address. -/
abbrev Heap := List Obj

/-- The object at an address. -/
def Heap.read (heap : Heap) (r : Ref) : Option Obj := heap.get? r

/-- A new object: its address and the heap that holds it. -/
def Heap.alloc (heap : Heap) (o : Obj) : Ref × Heap := (heap.length, heap ++ [o])

/-- Replace the object at an address. -/
def Heap.write (heap : Heap) (r : Ref) (o : Obj) : Heap := heap.set r o

/-- Run a statement that changes the object at an address. -/
def Heap.modify (heap : Heap) (r : Ref) (f : Obj → Except JSError Obj) : Except JSError Heap :=
  match heap.read r with
  | none => .error .unmodelled
  | some o =>
    match f o with
    | .error e => .error e
    | .ok o1 => .ok (heap.write r o1)

/-- The `for (var property in obj)` loop of `KeyRing.encrypt` on the object at
address `obj`. -/
def stripLoopInHeap : List JSString → Heap → Ref → Except JSError Heap
  | [], heap, _ => .ok heap
  | property :: more, heap, obj =>
    match heap.modify obj (fun o => stripTurn o property) with
    | .error e => .error e
    | .ok heap1 => stripLoopInHeap more heap1 obj

/-- Source `KeyRing.encrypt(data, key)` on a heap: `data` is the address of the
caller's object; the result is the address of the returned object and the heap
after the call.  An address that holds no object is outside the model. -/
def KeyRing.encryptInHeap (host : Host) (rng : RandomSource) (heap : Heap) (data : Ref)
    (key : Bytes) : Except JSError (Ref × Heap) :=
  match heap.read data with
  | none => .error .unmodelled
  | some d =>
    if Props.has d (js "__proto__") then .error .unmodelled
    else
      match heap.alloc (Object.assign [] d) with
      | (obj, heap1) =>
        match heap1.read obj with
        | none => .error .unmodelled
        | some o1 =>
          match stripLoopInHeap (Props.keys o1) heap1 obj with
          | .error e => .error e
          | .ok heap2 =>
            match KeyRing.randomValuesArray rng none with
            | .error e => .error e
            | .ok nonce =>
              match heap2.modify obj
                  (fun o => .ok (Props.set o (js "nonce") (JSValue.uint8 nonce))) with
              | .error e => .error e
              | .ok heap3 =>
                match heap3.read obj with
                | none => .error .unmodelled
                | some o3 =>
                  match aesEncrypt host (JSON.stringify (Obj.get o3 (js "contents"))) key
                      nonce with
                  | .error e => .error e
                  | .ok encrypted =>
                    match heap3.modify obj
                        (fun o => .ok (Props.set o (js "contents")
                          (JSValue.uint8 encrypted))) with
                    | .error e => .error e
                    | .ok heap4 => .ok (obj, heap4)

/-! ## Further assumptions and stand-ins -/

/-- Modelled from the spec: what the AEAD primitive of the library, absent from
the source, does under another key, "AuthenticationFailure — AEAD tag
verification fails (wrong key or tampered/corrupted ciphertext)": a ciphertext
produced under one 32-byte key with a 32-byte nonce is rejected, with the error
of a failed integrity check, under every other 32-byte key. -/
def Host.RejectsOtherKey (host : Host) : Prop :=
  ∀ (p : Option JSString) (key1 key2 nonce ct : Bytes), key1.length = 32 → key2.length = 32 →
    nonce.length = 32 → key1 ≠ key2 →
    host.AES_GCM_encrypt p key1 nonce none 16 = .ok ct →
    host.AES_GCM_decrypt ct key2 nonce none 16 = .error .SecurityError

/-- Stand-in for authenticated encryption in the symbolic style: the ciphertext
names the key and the nonce it was made with, followed by the text. -/
def sealedSeal (pt key nonce : Bytes) : Except JSError Bytes :=
  if key.length = 32 ∧ nonce.length = 32 then .ok (key ++ nonce ++ pt)
  else .error .IllegalArgumentError

/-- Stand-in for authenticated decryption in the symbolic style: the text, when
the ciphertext names this key and this nonce. -/
def sealedOpen (ct key nonce : Bytes) : Except JSError Bytes :=
  if key.length = 32 ∧ nonce.length = 32 then
    if ct.take 64 = key ++ nonce then .ok (ct.drop 64) else .error .SecurityError
  else .error .IllegalArgumentError

/-- A host with the symbolic stand-in cipher, the byte-per-code-unit conversion
of a text, and the digest of the specification.  Like `binaryHost` it only
serves to run the functions on concrete inputs. -/
def sealedHost : Host where
  AES_GCM_encrypt := fun data key nonce _ _ =>
    match data with
    | none => .error .IllegalArgumentError
    | some s =>
      match bytesOfString? s with
      | none => .error .IllegalArgumentError
      | some pt => sealedSeal pt key nonce
  AES_GCM_decrypt := fun ct key nonce _ _ => sealedOpen ct key nonce
  SHA256_bytes := fun s => .ok (SHA256.bytes s)
  stringToUint8 := fun _ => 0

/-- The data object of the specification's scenario: `sampleContent` and nothing
else. -/
def scenarioData : Obj := [(js "contents", JSValue.json sampleContent)]

/-- The key of the specification's scenario, derived from `uid123`, `a@b.com` and
`password1`. -/
def scenarioKey : Bytes := SHA256.bytes (js "uid123a@b.compassword1")

/-- The other key of the specification's scenario, derived with `wrongpass`. -/
def scenarioWrongKey : Bytes := SHA256.bytes (js "uid123a@b.comwrongpass")

theorem skipWs_cons {c : Nat} (r : JSString) (h : isJSONWhitespace c = false) :
    skipWs (c :: r) = c :: r := by
  simp [skipWs, h]

theorem hexValue_hexDigit (d : Nat) (h : d < 16) : hexValue (hexDigit d) = some d := by
  interval_cases d <;> rfl

theorem hex4_unicodeEscape (c : Nat) (h : c < 65536) :
    hex4 (hexDigit (c / 4096 % 16)) (hexDigit (c / 256 % 16)) (hexDigit (c / 16 % 16))
      (hexDigit (c % 16)) = some c := by
  unfold hex4
  rw [hexValue_hexDigit _ (Nat.mod_lt _ (by norm_num)), hexValue_hexDigit _ (Nat.mod_lt _ (by norm_num)),
    hexValue_hexDigit _ (Nat.mod_lt _ (by norm_num)), hexValue_hexDigit _ (Nat.mod_lt _ (by norm_num))]
  simp only [Option.some.injEq]
  omega

theorem parseStringBody_unicodeEscape (c : Nat) (h : c < 65536) (t : JSString) :
    parseStringBody (unicodeEscape c ++ t) = prepend c (parseStringBody t) := by
  simp only [unicodeEscape, List.cons_append, List.nil_append]
  rw [parseStringBody.eq_def]
  simp [hex4_unicodeEscape c h]

theorem parseStringBody_raw (c : Nat) (h1 : c ≠ 34) (h2 : c ≠ 92) (h3 : 32 ≤ c) (t : JSString) :
    parseStringBody (c :: t) = prepend c (parseStringBody t) := by
  rw [parseStringBody.eq_def]
  simp [h1, h2, Nat.not_lt.mpr h3]

theorem parseStringBody_quoteUnit (c : Nat) (t : JSString) :
    parseStringBody (quoteUnit c ++ t) = prepend c (parseStringBody t) := by
  unfold quoteUnit
  split_ifs with h8 h9 h10 h12 h13 h34 h92 h32
  · subst h8; rw [List.cons_append, parseStringBody.eq_def]; simp [unescape]
  · subst h9; rw [List.cons_append, parseStringBody.eq_def]; simp [unescape]
  · subst h10; rw [List.cons_append, parseStringBody.eq_def]; simp [unescape]
  · subst h12; rw [List.cons_append, parseStringBody.eq_def]; simp [unescape]
  · subst h13; rw [List.cons_append, parseStringBody.eq_def]; simp [unescape]
  · subst h34; rw [List.cons_append, parseStringBody.eq_def]; simp [unescape]
  · subst h92; rw [List.cons_append, parseStringBody.eq_def]; simp [unescape]
  · exact parseStringBody_unicodeEscape c (by omega) t
  · exact parseStringBody_raw c h34 h92 (by omega) t

theorem parseStringBody_quoteBody (rest : JSString) :
    ∀ (s : JSString) (flag : Bool), (flag = true → startsWithTrail s = true) →
      parseStringBody (quoteBody flag s ++ 34 :: rest) = .ok (s, rest) := by
  intro s
  induction s with
  | nil =>
    intro flag _
    cases flag <;> (rw [quoteBody, List.nil_append, parseStringBody.eq_def]; simp)
  | cons c t ih =>
    intro flag hflag
    cases flag with
    | true =>
      have hc : isTrailSurrogate c = true := by simpa [startsWithTrail] using hflag
      simp only [isTrailSurrogate, Bool.and_eq_true, decide_eq_true_eq] at hc
      rw [quoteBody, List.cons_append, parseStringBody_raw c (by omega) (by omega) (by omega),
        ih false (by simp), prepend]
    | false =>
      rw [quoteBody]
      split_ifs with hpair hsur
      · simp only [Bool.and_eq_true] at hpair
        have hc := hpair.1
        simp only [isLeadSurrogate, Bool.and_eq_true, decide_eq_true_eq] at hc
        rw [List.cons_append, parseStringBody_raw c (by omega) (by omega) (by omega),
          ih true (fun _ => hpair.2), prepend]
      · have hc : c < 65536 := by
          simp only [Bool.or_eq_true, isLeadSurrogate, isTrailSurrogate, Bool.and_eq_true,
            decide_eq_true_eq] at hsur
          omega
        rw [List.append_assoc, parseStringBody_unicodeEscape c hc, ih false (by simp), prepend]
      · rw [List.append_assoc, parseStringBody_quoteUnit, ih false (by simp), prepend]


theorem parseDigits_decimalDigits :
    ∀ (f n : Nat), n < f → ∀ (acc : Nat) (r : JSString),
      parseDigits acc (decimalDigits f n ++ r)
        = parseDigits (acc * 10 ^ (decimalDigits f n).length + n) r := by
  intro f
  induction f with
  | zero => intro n h; omega
  | succ f ih =>
    intro n hn acc r
    rw [decimalDigits]
    split_ifs with h10
    · have hd : isDigit (48 + n) = true := by simp [isDigit]; omega
      simp only [List.cons_append, List.nil_append, List.length_singleton, pow_one]
      rw [parseDigits, if_pos hd]
      congr 1
      omega
    · have hlt : n / 10 < f := by omega
      have hd : isDigit (48 + n % 10) = true := by simp [isDigit]; omega
      rw [List.append_assoc, ih (n / 10) hlt acc, List.cons_append, List.nil_append, parseDigits,
        if_pos hd, List.length_append, List.length_singleton, pow_succ]
      congr 1
      have := Nat.div_add_mod n 10
      have h2 : 48 + n % 10 - 48 = n % 10 := by omega
      rw [h2]
      nlinarith [Nat.div_add_mod n 10]

theorem parseDigits_numEnd (acc : Nat) (r : JSString) (h : numEnd r = true) :
    parseDigits acc r = (acc, r) := by
  cases r with
  | nil => rfl
  | cons c t =>
    simp only [numEnd, Bool.and_eq_true, Bool.not_eq_true'] at h
    rw [parseDigits]
    simp [h.1]

theorem startsFraction_numEnd (r : JSString) (h : numEnd r = true) : startsFraction r = false := by
  cases r with
  | nil => rfl
  | cons c t =>
    simp only [numEnd, Bool.and_eq_true, Bool.not_eq_true'] at h
    simpa [startsFraction] using h.2

theorem decimalDigits_head :
    ∀ (f n : Nat), n < f → 0 < n →
      ∃ c t, decimalDigits f n = c :: t ∧ 49 ≤ c ∧ c ≤ 57 := by
  intro f
  induction f with
  | zero => intro n h; omega
  | succ f ih =>
    intro n hn hpos
    rw [decimalDigits]
    split_ifs with h10
    · exact ⟨48 + n, [], rfl, by omega, by omega⟩
    · obtain ⟨c, t, hct, h1, h2⟩ := ih (n / 10) (by omega) (by omega)
      exact ⟨c, t ++ [48 + n % 10], by rw [hct]; rfl, h1, h2⟩

theorem parseUnsigned_natToString (n : Nat) (r : JSString) (hsafe : n ≤ maxSafeInteger)
    (hr : numEnd r = true) : parseUnsigned (natToString n ++ r) = .ok (n, r) := by
  rcases Nat.eq_zero_or_pos n with h0 | hpos
  · subst h0
    have : natToString 0 = [48] := rfl
    rw [this, List.cons_append, List.nil_append, parseUnsigned]
    simp [finishNumber, startsFraction_numEnd r hr, maxSafeInteger]
  · obtain ⟨c, t, hct, h1, h2⟩ := decimalDigits_head (n + 1) n (by omega) hpos
    have hpd := parseDigits_decimalDigits (n + 1) n (by omega) 0 r
    rw [zero_mul, zero_add, parseDigits_numEnd n r hr] at hpd
    unfold natToString
    rw [hct, List.cons_append, parseUnsigned]
    have hc48 : c ≠ 48 := by omega
    have hd : isDigit c = true := by simp [isDigit]; omega
    rw [if_neg hc48, if_pos hd, ← List.cons_append, ← hct, hpd]
    simp [finishNumber, startsFraction_numEnd r hr, Nat.not_lt.mpr hsafe]

theorem natToString_head (n : Nat) :
    ∃ c t, natToString n = c :: t ∧ 48 ≤ c ∧ c ≤ 57 := by
  rcases Nat.eq_zero_or_pos n with h0 | hpos
  · subst h0; exact ⟨48, [], rfl, by omega, by omega⟩
  · obtain ⟨c, t, hct, h1, h2⟩ := decimalDigits_head (n + 1) n (by omega) hpos
    exact ⟨c, t, hct, by omega, h2⟩

theorem parseNumber_numberToString (n : Int) (r : JSString)
    (hsafe : n.natAbs ≤ maxSafeInteger) (hr : numEnd r = true) :
    parseNumber (numberToString n ++ r) = .ok (n, r) := by
  unfold numberToString
  split_ifs with hneg
  · rw [List.cons_append, parseNumber, if_pos rfl, parseUnsigned_natToString _ r hsafe hr]
    simp only [Except.ok.injEq, Prod.mk.injEq, and_true]
    omega
  · obtain ⟨c, t, hct, h1, h2⟩ := natToString_head n.natAbs
    have hc : c ≠ 45 := by omega
    have hp := parseUnsigned_natToString n.natAbs r hsafe hr
    rw [hct] at hp ⊢
    rw [List.cons_append] at hp ⊢
    rw [parseNumber, if_neg hc, hp]
    simp only [Except.ok.injEq, Prod.mk.injEq, and_true]
    omega

theorem numberToString_head (n : Int) :
    ∃ c t, numberToString n = c :: t ∧ (c = 45 ∨ (48 ≤ c ∧ c ≤ 57)) := by
  unfold numberToString
  split_ifs with hneg
  · exact ⟨45, _, rfl, Or.inl rfl⟩
  · obtain ⟨c, t, hct, h1, h2⟩ := natToString_head n.natAbs
    exact ⟨c, t, hct, Or.inr ⟨h1, h2⟩⟩


theorem js_null : js "null" = [110, 117, 108, 108] := by decide
theorem js_true : js "true" = [116, 114, 117, 101] := rfl
theorem js_false : js "false" = [102, 97, 108, 115, 101] := rfl
theorem js_ull : js "ull" = [117, 108, 108] := rfl
theorem js_rue : js "rue" = [114, 117, 101] := rfl
theorem js_alse : js "alse" = [97, 108, 115, 101] := rfl

theorem serialize_head (v : JSON) :
    ∃ c t, JSON.serialize v = c :: t ∧ isJSONWhitespace c = false ∧ c ≠ 93 ∧ c ≠ 125 := by
  cases v with
  | null => exact ⟨110, _, by rw [JSON.serialize, js_null], by decide, by decide, by decide⟩
  | bool b =>
    cases b
    · exact ⟨102, _, by rw [JSON.serialize, js_false], by decide, by decide, by decide⟩
    · exact ⟨116, _, by rw [JSON.serialize, js_true], by decide, by decide, by decide⟩
  | num n =>
    obtain ⟨c, t, hct, h⟩ := numberToString_head n
    refine ⟨c, t, by rw [JSON.serialize, hct], ?_, by omega, by omega⟩
    simp only [isJSONWhitespace, Bool.or_eq_false_iff, decide_eq_false_iff_not]
    omega
  | str s => exact ⟨34, _, by rw [JSON.serialize, quoteJSONString], by decide, by decide, by decide⟩
  | arr xs =>
    cases xs with
    | nil => exact ⟨91, _, by rw [JSON.serialize], by decide, by decide, by decide⟩
    | cons x xs => exact ⟨91, _, by rw [JSON.serialize], by decide, by decide, by decide⟩
  | obj kvs =>
    cases kvs with
    | nil => exact ⟨123, _, by rw [JSON.serialize], by decide, by decide, by decide⟩
    | cons kv kvs =>
      obtain ⟨k, v⟩ := kv
      exact ⟨123, _, by rw [JSON.serialize], by decide, by decide, by decide⟩

theorem skipWs_serialize (v : JSON) (t : JSString) :
    skipWs (JSON.serialize v ++ t) = JSON.serialize v ++ t := by
  obtain ⟨c, u, hcu, hws, _, _⟩ := serialize_head v
  rw [hcu, List.cons_append, skipWs_cons _ hws]

theorem parseValue_null (f : Nat) (rest : JSString) :
    parseValue (f + 1) (js "null" ++ rest) = .ok (JSON.null, rest) := by
  rw [js_null, List.cons_append, parseValue, js_ull]
  simp [expectLit]

theorem parseValue_true (f : Nat) (rest : JSString) :
    parseValue (f + 1) (js "true" ++ rest) = .ok (JSON.bool true, rest) := by
  rw [js_true, List.cons_append, parseValue, js_rue]
  simp [expectLit]

theorem parseValue_false (f : Nat) (rest : JSString) :
    parseValue (f + 1) (js "false" ++ rest) = .ok (JSON.bool false, rest) := by
  rw [js_false, List.cons_append, parseValue, js_alse]
  simp [expectLit]

theorem parseValue_string (f : Nat) (s rest : JSString) :
    parseValue (f + 1) (quoteJSONString s ++ rest) = .ok (JSON.str s, rest) := by
  rw [quoteJSONString, List.cons_append, List.append_assoc, List.singleton_append, parseValue]
  simp [parseStringBody_quoteBody rest s false]

theorem parseValue_number (f : Nat) (n : Int) (rest : JSString)
    (hsafe : n.natAbs ≤ maxSafeInteger) (hr : numEnd rest = true) :
    parseValue (f + 1) (numberToString n ++ rest) = .ok (JSON.num n, rest) := by
  obtain ⟨c, t, hct, h⟩ := numberToString_head n
  have hp := parseNumber_numberToString n rest hsafe hr
  rw [hct, List.cons_append] at hp ⊢
  rw [parseValue, hp]
  have h1 : c ≠ 110 := by omega
  have h2 : c ≠ 116 := by omega
  have h3 : c ≠ 102 := by omega
  have h4 : c ≠ 34 := by omega
  have h5 : c ≠ 91 := by omega
  have h6 : c ≠ 123 := by omega
  have h7 : (c = 45 || isDigit c) = true := by
    simp only [isDigit, Bool.or_eq_true, decide_eq_true_eq, Bool.and_eq_true]
    omega
  simp [h1, h2, h3, h4, h5, h6, h7]

theorem parseKey_quote (k t : JSString) :
    parseKey (quoteJSONString k ++ 58 :: t) = .ok (k, skipWs t) := by
  rw [quoteJSONString, List.cons_append, List.append_assoc, List.singleton_append, parseKey]
  simp [parseStringBody_quoteBody (58 :: t) k false, skipWs, isJSONWhitespace]


theorem serializeElements_head (xs : List JSON) :
    ∃ c t, JSON.serializeElements xs = c :: t ∧ (c = 93 ∨ c = 44) := by
  cases xs with
  | nil => exact ⟨93, [], by rw [JSON.serializeElements], Or.inl rfl⟩
  | cons x xs => exact ⟨44, _, by rw [JSON.serializeElements], Or.inr rfl⟩

theorem serializeMembers_head (kvs : List (JSString × JSON)) :
    ∃ c t, JSON.serializeMembers kvs = c :: t ∧ (c = 125 ∨ c = 44) := by
  cases kvs with
  | nil => exact ⟨125, [], by rw [JSON.serializeMembers], Or.inl rfl⟩
  | cons kv kvs =>
    obtain ⟨k, v⟩ := kv
    exact ⟨44, _, by rw [JSON.serializeMembers], Or.inr rfl⟩

theorem numEnd_serializeElements (xs : List JSON) (rest : JSString) :
    numEnd (JSON.serializeElements xs ++ rest) = true := by
  obtain ⟨c, t, hct, h⟩ := serializeElements_head xs
  rw [hct, List.cons_append]
  rcases h with h | h <;> subst h <;> rfl

theorem numEnd_serializeMembers (kvs : List (JSString × JSON)) (rest : JSString) :
    numEnd (JSON.serializeMembers kvs ++ rest) = true := by
  obtain ⟨c, t, hct, h⟩ := serializeMembers_head kvs
  rw [hct, List.cons_append]
  rcases h with h | h <;> subst h <;> rfl

theorem Props.set_of_not_mem {α : Type} (o : Props α) (k : JSString) (v : α)
    (h : k ∉ Props.keys o) : Props.set o k v = o ++ [(k, v)] := by
  induction o with
  | nil => rfl
  | cons p r ih =>
    obtain ⟨k', v'⟩ := p
    simp only [Props.keys, List.map_cons, List.mem_cons, not_or] at h
    rw [Props.set, if_neg (fun e => h.1 e.symm), List.cons_append]
    rw [ih (by simpa [Props.keys] using h.2)]

theorem Props.foldl_set_of_nodup {α : Type} (es : List (JSString × α)) :
    ∀ (acc : Props α), (Props.keys acc ++ Props.keys es).Nodup →
      es.foldl (fun o e => Props.set o e.1 e.2) acc = acc ++ es := by
  induction es with
  | nil => intro acc _; simp
  | cons e r ih =>
    intro acc h
    have hk : e.1 ∉ Props.keys acc := by
      intro hmem
      have := List.nodup_append.mp h
      exact this.2.2 hmem (by simp [Props.keys])
    rw [List.foldl_cons, Props.set_of_not_mem acc e.1 e.2 hk, ih]
    · simp
    · simp only [Props.keys, List.map_append, List.map_cons, List.map_nil, List.append_assoc,
        List.singleton_append] at h ⊢
      exact h

theorem Props.ofEntries_of_nodup {α : Type} (es : List (JSString × α))
    (h : (Props.keys es).Nodup) : Props.ofEntries es = es := by
  unfold Props.ofEntries
  rw [Props.foldl_set_of_nodup es [] (by simpa [Props.keys] using h)]
  rfl

mutual
theorem parseValue_serialize (v : JSON) (hwf : v.WellFormed) (fuel : Nat) (rest : JSString)
    (hfuel : (JSON.serialize v).length ≤ fuel) (hrest : numEnd rest = true) :
    parseValue fuel (JSON.serialize v ++ rest) = .ok (v, rest) := by
  cases fuel with
  | zero =>
    obtain ⟨c, t, hct, _⟩ := serialize_head v
    rw [hct] at hfuel
    simp at hfuel
  | succ f =>
    match v, hwf, hfuel with
    | .null, _, _ => rw [JSON.serialize]; exact parseValue_null f rest
    | .bool true, _, _ => rw [JSON.serialize]; exact parseValue_true f rest
    | .bool false, _, _ => rw [JSON.serialize]; exact parseValue_false f rest
    | .num n, hwf, _ =>
      rw [JSON.serialize]
      rw [JSON.WellFormed] at hwf
      exact parseValue_number f n rest hwf hrest
    | .str s, _, _ => rw [JSON.serialize]; exact parseValue_string f s rest
    | .arr [], _, _ =>
      rw [JSON.serialize, List.cons_append, parseValue]
      simp [skipWs, isJSONWhitespace]
    | .arr (x :: xs), hwf, hfuel =>
      rw [JSON.WellFormed, JSON.WellFormedList] at hwf
      rw [JSON.serialize] at hfuel ⊢
      simp only [List.length_cons, List.length_append] at hfuel
      obtain ⟨c, t, hct, hws, h93, _⟩ := serialize_head x
      have hx := parseValue_serialize x hwf.1 f (JSON.serializeElements xs ++ rest) (by omega)
        (numEnd_serializeElements xs rest)
      have hxs := parseElements_serialize xs hwf.2 f rest (by omega)
      rw [List.cons_append, List.append_assoc, parseValue]
      rw [hct, List.cons_append] at hx ⊢
      rw [skipWs_cons _ hws]
      simp [h93, hx, hxs]
    | .obj [], _, _ =>
      rw [JSON.serialize, List.cons_append, parseValue]
      simp [skipWs, isJSONWhitespace]
    | .obj ((k, w) :: kvs), hwf, hfuel =>
      rw [JSON.WellFormed, JSON.WellFormedMembers] at hwf
      rw [JSON.serialize] at hfuel ⊢
      simp only [List.length_cons, List.length_append] at hfuel
      have hw := parseValue_serialize w hwf.2.1 f (JSON.serializeMembers kvs ++ rest) (by omega)
        (numEnd_serializeMembers kvs rest)
      have hkvs := parseMembers_serialize kvs hwf.2.2 f rest (by omega)
      have hkey := parseKey_quote k (JSON.serialize w ++ (JSON.serializeMembers kvs ++ rest))
      rw [skipWs_serialize] at hkey
      rw [List.cons_append, List.append_assoc, List.cons_append, List.append_assoc, parseValue]
      rw [quoteJSONString, List.cons_append] at hkey ⊢
      simp only [List.append_assoc, List.cons_append, List.nil_append] at hkey ⊢
      rw [skipWs_cons _ (by decide)]
      have hk := hwf.1
      simp [hkey, hw, hkvs, Props.ofEntries_of_nodup _ hk]
theorem parseElements_serialize (xs : List JSON) (hwf : JSON.WellFormedList xs) (fuel : Nat)
    (rest : JSString) (hfuel : (JSON.serializeElements xs).length ≤ fuel) :
    parseElements fuel (JSON.serializeElements xs ++ rest) = .ok (xs, rest) := by
  cases fuel with
  | zero =>
    obtain ⟨c, t, hct, _⟩ := serializeElements_head xs
    rw [hct] at hfuel
    simp at hfuel
  | succ f =>
    match xs, hwf, hfuel with
    | [], _, _ =>
      rw [JSON.serializeElements, List.cons_append, parseElements]
      simp [skipWs, isJSONWhitespace]
    | x :: xs, hwf, hfuel =>
      rw [JSON.WellFormedList] at hwf
      rw [JSON.serializeElements] at hfuel ⊢
      simp only [List.length_cons, List.length_append] at hfuel
      have hx := parseValue_serialize x hwf.1 f (JSON.serializeElements xs ++ rest) (by omega)
        (numEnd_serializeElements xs rest)
      have hxs := parseElements_serialize xs hwf.2 f rest (by omega)
      rw [List.cons_append, List.append_assoc, parseElements, skipWs_cons _ (by decide)]
      simp [skipWs_serialize, hx, hxs]
theorem parseMembers_serialize (kvs : List (JSString × JSON)) (hwf : JSON.WellFormedMembers kvs)
    (fuel : Nat) (rest : JSString) (hfuel : (JSON.serializeMembers kvs).length ≤ fuel) :
    parseMembers fuel (JSON.serializeMembers kvs ++ rest) = .ok (kvs, rest) := by
  cases fuel with
  | zero =>
    obtain ⟨c, t, hct, _⟩ := serializeMembers_head kvs
    rw [hct] at hfuel
    simp at hfuel
  | succ f =>
    match kvs, hwf, hfuel with
    | [], _, _ =>
      rw [JSON.serializeMembers, List.cons_append, parseMembers]
      simp [skipWs, isJSONWhitespace]
    | (k, w) :: kvs, hwf, hfuel =>
      rw [JSON.WellFormedMembers] at hwf
      rw [JSON.serializeMembers] at hfuel ⊢
      simp only [List.length_cons, List.length_append] at hfuel
      have hw := parseValue_serialize w hwf.1 f (JSON.serializeMembers kvs ++ rest) (by omega)
        (numEnd_serializeMembers kvs rest)
      have hkvs := parseMembers_serialize kvs hwf.2 f rest (by omega)
      have hkey := parseKey_quote k (JSON.serialize w ++ (JSON.serializeMembers kvs ++ rest))
      rw [skipWs_serialize] at hkey
      rw [List.cons_append, List.append_assoc, List.cons_append, List.append_assoc, parseMembers,
        skipWs_cons _ (by decide)]
      have h34 : isJSONWhitespace 34 = false := by decide
      rw [quoteJSONString, List.cons_append] at hkey
      simp only [List.append_assoc, List.cons_append, List.nil_append] at hkey
      simp [quoteJSONString, skipWs_cons _ h34, hkey, hw, hkvs]
end

/-! ## Lemmas: the wire format of a `Uint8Array` -/


theorem JSON.parse_serialize (v : JSON) (hwf : v.WellFormed) :
    JSON.parse (JSON.serialize v) = .ok v := by
  have h := parseValue_serialize v hwf ((JSON.serialize v).length + 1) [] (by omega) rfl
  have hs := skipWs_serialize v []
  rw [List.append_nil] at h hs
  rw [JSON.parse, hs, h]
  rfl

theorem natToString_injective : Function.Injective natToString := by
  intro a b hab
  have ha := parseDigits_decimalDigits (a + 1) a (by omega) 0 []
  have hb := parseDigits_decimalDigits (b + 1) b (by omega) 0 []
  rw [zero_mul, zero_add, parseDigits_numEnd _ [] rfl] at ha hb
  unfold natToString at hab
  rw [hab, hb] at ha
  exact (Prod.mk.inj ha).1.symm

theorem keys_indexEntries (b : Bytes) :
    ∀ s, Props.keys (indexEntries s b) = (List.range' s b.length).map natToString := by
  induction b with
  | nil => intro s; rfl
  | cons x xs ih =>
    intro s
    rw [indexEntries, Props.keys, List.map_cons, List.length_cons, List.range'_succ, List.map_cons]
    congr 1
    exact ih (s + 1)

theorem length_indexEntries (b : Bytes) : ∀ s, (indexEntries s b).length = b.length := by
  induction b with
  | nil => intro s; rfl
  | cons x xs ih => intro s; rw [indexEntries, List.length_cons, List.length_cons, ih]

theorem wellFormed_indexEntries (b : Bytes) :
    ∀ s, JSON.WellFormed (JSON.obj (indexEntries s b)) := by
  intro s
  rw [JSON.WellFormed]
  refine ⟨?_, ?_⟩
  · rw [keys_indexEntries]
    exact (List.nodup_range' s b.length).map natToString_injective
  · induction b generalizing s with
    | nil => rw [indexEntries, JSON.WellFormedMembers]; trivial
    | cons x xs ih =>
      rw [indexEntries, JSON.WellFormedMembers, JSON.WellFormed]
      refine ⟨?_, ih (s + 1)⟩
      have := x.isLt
      simp only [Int.natAbs_ofNat, maxSafeInteger]
      omega

theorem get?_indexEntries (b : Bytes) :
    ∀ (s j : Nat) (h : j < b.length),
      Props.get? (indexEntries s b) (natToString (s + j)) = some (JSON.num ((b.get ⟨j, h⟩).val : Nat)) := by
  induction b with
  | nil => intro s j h; simp at h
  | cons x xs ih =>
    intro s j h
    rw [indexEntries, Props.get?]
    cases j with
    | zero => simp
    | succ j =>
      have hne : natToString s ≠ natToString (s + (j + 1)) := by
        intro e
        have := natToString_injective e
        omega
      rw [if_neg hne]
      have h' : j < xs.length := by simpa using h
      have := ih (s + 1) j h'
      rw [show s + 1 + j = s + (j + 1) by omega] at this
      rw [this]
      rfl

theorem intToUint8_val (x : Byte) : intToUint8 ((x.val : Nat) : Int) = x := by
  apply Fin.ext
  have := x.isLt
  simp only [intToUint8, Fin.ofNat]
  omega

theorem fillFrom_indexEntries (host : Host) (b : Bytes) :
    ∀ (turns i : Nat), i + turns = b.length →
      fillFrom host (JSON.obj (indexEntries 0 b)) i turns = .ok (b.drop i) := by
  intro turns
  induction turns with
  | zero =>
    intro i hi
    rw [fillFrom, List.drop_of_length_le (by omega)]
  | succ n ih =>
    intro i hi
    have hlt : i < b.length := by omega
    have hg := get?_indexEntries b 0 i hlt
    rw [zero_add] at hg
    rw [fillFrom, getIndex, hg, toUint8, intToUint8_val, ih (i + 1) (by omega)]
    simp only [List.get_eq_getElem]
    rw [← List.drop_eq_getElem_cons hlt]

theorem jsonObjToTypedArray_indexEntries (host : Host) (b : Bytes) :
    jsonObjToTypedArray host (JSON.obj (indexEntries 0 b)) = .ok b := by
  simp only [jsonObjToTypedArray, Object.keys, Props.keys, List.length_map, length_indexEntries]
  rw [fillFrom_indexEntries host b b.length 0 (by omega)]
  rfl

theorem parse_stringify_uint8 (b : Bytes) :
    ∃ text, JSON.stringify (JSValue.uint8 b) = some text ∧
      JSON.parse text = .ok (JSON.obj (indexEntries 0 b)) :=
  ⟨_, rfl, JSON.parse_serialize _ (wellFormed_indexEntries b 0)⟩


/-! ## Lemmas: property lists -/


theorem Props.get?_set_self {α : Type} (o : Props α) (k : JSString) (v : α) :
    Props.get? (Props.set o k v) k = some v := by
  induction o with
  | nil => simp [Props.set, Props.get?]
  | cons p r ih =>
    obtain ⟨k', v'⟩ := p
    rw [Props.set]
    split_ifs with h
    · simp [Props.get?, h]
    · simp [Props.get?, h, ih]

theorem Props.get?_set_ne {α : Type} (o : Props α) (k k' : JSString) (v : α) (h : k ≠ k') :
    Props.get? (Props.set o k v) k' = Props.get? o k' := by
  induction o with
  | nil => simp [Props.set, Props.get?, h]
  | cons p r ih =>
    obtain ⟨k1, v1⟩ := p
    rw [Props.set]
    split_ifs with h1
    · subst h1
      simp [Props.get?, h]
    · simp [Props.get?, ih]

theorem Props.get?_delete_ne {α : Type} (o : Props α) (k k' : JSString) (h : k ≠ k') :
    Props.get? (Props.delete o k) k' = Props.get? o k' := by
  induction o with
  | nil => simp [Props.delete]
  | cons p r ih =>
    obtain ⟨k1, v1⟩ := p
    rw [Props.delete]
    split_ifs with h1
    · subst h1
      simp [Props.get?, h, ih]
    · simp [Props.get?, ih]

theorem Props.has_eq_isSome {α : Type} (o : Props α) (k : JSString) :
    Props.has o k = (Props.get? o k).isSome := by
  induction o with
  | nil => rfl
  | cons p r ih =>
    obtain ⟨k1, v1⟩ := p
    rw [Props.has, Props.get?]
    split_ifs with h1
    · rfl
    · exact ih

theorem Props.has_set_ne {α : Type} (o : Props α) (k k' : JSString) (v : α) (h : k ≠ k') :
    Props.has (Props.set o k v) k' = Props.has o k' := by
  rw [Props.has_eq_isSome, Props.has_eq_isSome, Props.get?_set_ne o k k' v h]

theorem Props.has_delete_ne {α : Type} (o : Props α) (k k' : JSString) (h : k ≠ k') :
    Props.has (Props.delete o k) k' = Props.has o k' := by
  rw [Props.has_eq_isSome, Props.has_eq_isSome, Props.get?_delete_ne o k k' h]

theorem Props.has_iff_mem_keys {α : Type} (o : Props α) (k : JSString) :
    Props.has o k = true ↔ k ∈ Props.keys o := by
  induction o with
  | nil => simp [Props.has, Props.keys]
  | cons p r ih =>
    obtain ⟨k1, v1⟩ := p
    rw [Props.has]
    split_ifs with h1
    · subst h1; simp [Props.keys]
    · rw [ih]
      simp only [Props.keys, List.map_cons, List.mem_cons]
      constructor
      · exact fun h => Or.inr h
      · rintro (h | h)
        · exact absurd h.symm h1
        · exact h

theorem Props.delete_of_not_has {α : Type} (o : Props α) (k : JSString)
    (h : Props.has o k = false) : Props.delete o k = o := by
  induction o with
  | nil => rfl
  | cons p r ih =>
    obtain ⟨k1, v1⟩ := p
    rw [Props.has] at h
    split_ifs at h with h1
    rw [Props.delete, if_neg h1, ih h]

theorem Props.has_delete_self {α : Type} (o : Props α) (k : JSString) :
    Props.has (Props.delete o k) k = false := by
  induction o with
  | nil => rfl
  | cons p r ih =>
    obtain ⟨k1, v1⟩ := p
    rw [Props.delete]
    split_ifs with h1
    · exact ih
    · rw [Props.has, if_neg h1]; exact ih

theorem Props.delete_delete {α : Type} (o : Props α) (k : JSString) :
    Props.delete (Props.delete o k) k = Props.delete o k :=
  Props.delete_of_not_has _ _ (Props.has_delete_self o k)

theorem Props.set_set {α : Type} (o : Props α) (k : JSString) (v w : α) :
    Props.set (Props.set o k v) k w = Props.set o k w := by
  induction o with
  | nil => simp [Props.set]
  | cons p r ih =>
    obtain ⟨k1, v1⟩ := p
    rw [Props.set, Props.set]
    split_ifs with h1
    · rw [Props.set, if_pos h1]
    · rw [Props.set, if_neg h1, ih]

theorem Props.delete_set_ne {α : Type} (o : Props α) (k k' : JSString) (v : α) (h : k ≠ k') :
    Props.delete (Props.set o k v) k' = Props.set (Props.delete o k') k v := by
  induction o with
  | nil => simp [Props.set, Props.delete, h]
  | cons p r ih =>
    obtain ⟨k1, v1⟩ := p
    rw [Props.set]
    split_ifs with h1
    · subst h1
      rw [Props.delete, if_neg h, Props.delete, if_neg h, Props.set, if_pos rfl]
    · rw [Props.delete, Props.delete]
      split_ifs with h2
      · exact ih
      · rw [Props.set, if_neg h1, ih]

theorem Props.keys_set_of_mem {α : Type} (o : Props α) (k : JSString) (v : α)
    (hk : k ∈ Props.keys o) : Props.keys (Props.set o k v) = Props.keys o := by
  induction o with
  | nil => simp [Props.keys] at hk
  | cons p r ih =>
    obtain ⟨k1, v1⟩ := p
    rw [Props.set]
    split_ifs with h1
    · rfl
    · have hk' : k ∈ Props.keys r := by
        simp only [Props.keys, List.map_cons, List.mem_cons] at hk
        rcases hk with hk | hk
        · exact absurd hk.symm h1
        · exact hk
      simp only [Props.keys, List.map_cons] at ih ⊢
      rw [ih hk']

theorem Props.keys_set_nodup {α : Type} (o : Props α) (k : JSString) (v : α)
    (h : (Props.keys o).Nodup) : (Props.keys (Props.set o k v)).Nodup := by
  by_cases hk : k ∈ Props.keys o
  · rw [Props.keys_set_of_mem o k v hk]; exact h
  · rw [Props.set_of_not_mem o k v hk]
    simp only [Props.keys, List.map_append, List.map_cons, List.map_nil]
    refine List.Nodup.append h (List.nodup_singleton k) ?_
    intro a ha hb
    rw [List.mem_singleton] at hb
    subst hb
    exact hk ha

theorem Object.assign_nil (data : Obj) (h : (Props.keys data).Nodup) :
    Object.assign [] data = data := by
  unfold Object.assign
  rw [Props.foldl_set_of_nodup data [] (by simpa [Props.keys] using h)]
  rfl


/-! ## Lemmas: the loop of `KeyRing.encrypt` -/


theorem key_ne_nonce_contents : js "nonce" ≠ js "contents" := by decide
theorem key_ne_nonce_property : js "nonce" ≠ js "property" := by decide
theorem key_ne_nonce_hop : js "nonce" ≠ js "hasOwnProperty" := by decide
theorem key_ne_nonce_proto : js "nonce" ≠ js "__proto__" := by decide
theorem key_ne_contents_property : js "contents" ≠ js "property" := by decide
theorem key_ne_property_hop : js "property" ≠ js "hasOwnProperty" := by decide
theorem indexOf_allowed_property : indexOf allowedProperties (js "property") < 0 := by decide

theorem stripTurn_cases (obj : Obj) (p : JSString)
    (hhop : Props.has obj (js "hasOwnProperty") = false) :
    stripTurn obj p = .ok obj ∨ stripTurn obj p = .ok (Props.delete obj (js "property")) := by
  unfold stripTurn
  rw [hhop]
  simp only [Bool.false_eq_true, if_false]
  split_ifs <;> simp

theorem stripLoop_cases (ps : List JSString) :
    ∀ (obj : Obj), Props.has obj (js "hasOwnProperty") = false →
      stripLoop ps obj = .ok obj ∨ stripLoop ps obj = .ok (Props.delete obj (js "property")) := by
  induction ps with
  | nil => intro obj _; exact Or.inl rfl
  | cons p ps ih =>
    intro obj hhop
    rw [stripLoop]
    rcases stripTurn_cases obj p hhop with h | h
    · rw [h]; exact ih obj hhop
    · rw [h]
      have hhop' : Props.has (Props.delete obj (js "property")) (js "hasOwnProperty") = false := by
        rw [Props.has_delete_ne _ _ _ key_ne_property_hop]; exact hhop
      rcases ih _ hhop' with h2 | h2
      · exact Or.inr h2
      · rw [Props.delete_delete] at h2; exact Or.inr h2

theorem stripLoop_of_mem (ps : List JSString) :
    ∀ (obj : Obj), Props.has obj (js "hasOwnProperty") = false →
      Props.has obj (js "property") = true → js "property" ∈ ps →
      stripLoop ps obj = .ok (Props.delete obj (js "property")) := by
  induction ps with
  | nil => intro obj _ _ h; simp at h
  | cons p ps ih =>
    intro obj hhop hprop hmem
    have hhop' : Props.has (Props.delete obj (js "property")) (js "hasOwnProperty") = false := by
      rw [Props.has_delete_ne _ _ _ key_ne_property_hop]; exact hhop
    have hdone : stripLoop ps (Props.delete obj (js "property"))
        = .ok (Props.delete obj (js "property")) := by
      rcases stripLoop_cases ps _ hhop' with h2 | h2
      · exact h2
      · rw [Props.delete_delete] at h2; exact h2
    rw [stripLoop]
    by_cases hp : p = js "property"
    · subst hp
      have : stripTurn obj (js "property") = .ok (Props.delete obj (js "property")) := by
        unfold stripTurn
        rw [hhop, hprop]
        simp [indexOf_allowed_property]
      rw [this]
      exact hdone
    · have hmem' : js "property" ∈ ps := by
        rcases List.mem_cons.mp hmem with h | h
        · exact absurd h.symm hp
        · exact h
      rcases stripTurn_cases obj p hhop with h | h
      · rw [h]; exact ih obj hhop hprop hmem'
      · rw [h]; exact hdone

theorem stripLoop_keys (obj : Obj) :
    stripLoop (Props.keys obj) obj =
      if Props.has obj (js "hasOwnProperty") then .error .TypeError
      else .ok (Props.delete obj (js "property")) := by
  split_ifs with hhop
  · cases obj with
    | nil => simp [Props.has] at hhop
    | cons p r =>
      obtain ⟨k, v⟩ := p
      simp only [Props.keys, List.map_cons]
      rw [stripLoop]
      have : stripTurn ((k, v) :: r) k = .error .TypeError := by
        unfold stripTurn
        rw [hhop]
        simp [Props.has]
      rw [this]
  · have hhop' : Props.has obj (js "hasOwnProperty") = false := by simpa using hhop
    cases hprop : Props.has obj (js "property") with
    | true =>
      exact stripLoop_of_mem _ obj hhop' hprop ((Props.has_iff_mem_keys obj _).mp hprop)
    | false =>
      rw [Props.delete_of_not_has obj _ hprop]
      rcases stripLoop_cases (Props.keys obj) obj hhop' with h | h
      · exact h
      · rw [Props.delete_of_not_has obj _ hprop] at h; exact h

theorem getRandomValues_length (rng : RandomSource) (array out : Bytes)
    (h : getRandomValues rng array = .ok out) : out.length = array.length := by
  unfold getRandomValues at h
  split at h
  · simp only [Except.ok.injEq] at h
    rw [← h]; simp
  · simp at h

/-- Closed form of `KeyRing.encrypt`. -/
theorem KeyRing.encrypt_eq (host : Host) (rng : RandomSource) (data : Obj) (key : Bytes) :
    KeyRing.encrypt host rng data key =
      if Props.has data (js "__proto__") then .error .unmodelled
      else if Props.has (Object.assign [] data) (js "hasOwnProperty") then .error .TypeError
      else
        match rng.draw 32 with
        | .error e => .error e
        | .ok f =>
          match host.AES_GCM_encrypt
              (JSON.stringify (Obj.get (Props.set (Props.delete (Object.assign [] data)
                (js "property")) (js "nonce") (JSValue.uint8 ((List.range 32).map f)))
                (js "contents"))) key ((List.range 32).map f) none 16 with
          | .error e => .error e
          | .ok ct =>
            .ok (Props.set (Props.set (Props.delete (Object.assign [] data) (js "property"))
              (js "nonce") (JSValue.uint8 ((List.range 32).map f))) (js "contents")
              (JSValue.uint8 ct)) := by
  unfold KeyRing.encrypt
  split_ifs with hproto hhop
  · rfl
  · simp only [stripLoop_keys, hhop, if_true]
  · simp only [stripLoop_keys, hhop]
    simp only [KeyRing.randomValuesArray, getRandomValues, orDefault, newUint8Array,
      List.length_replicate, aesEncrypt]
    cases rng.draw 32 with
    | error e => rfl
    | ok f => rfl


/-! ## Lemmas: the stored record -/

theorem Firebase.write_get_nonce (data : Obj) :
    Obj.get (Firebase.write data) (js "nonce")
      = stringOrUndefined (JSON.stringify (Obj.get data (js "nonce"))) := by
  simp [Firebase.write, Obj.get, Props.get?]

theorem Firebase.write_get_contents (data : Obj) :
    Obj.get (Firebase.write data) (js "contents")
      = stringOrUndefined (JSON.stringify (Obj.get data (js "contents"))) := by
  simp [Firebase.write, Obj.get, Props.get?, key_ne_nonce_contents]

theorem fieldBytes_write (host : Host) (data : Obj) (name : JSString) (b : Bytes)
    (hname : name = js "nonce" ∨ name = js "contents")
    (h : Obj.get data name = JSValue.uint8 b) :
    fieldBytes host (Firebase.write data) name = .ok b := by
  have hget : Obj.get (Firebase.write data) name
      = JSValue.json (JSON.str (JSON.serialize (JSON.obj (indexEntries 0 b)))) := by
    rcases hname with hn | hn <;> subst hn
    · rw [Firebase.write_get_nonce, h]; rfl
    · rw [Firebase.write_get_contents, h]; rfl
  rw [fieldBytes, hget, JSON.parseValue, JSValue.toStringJS, JSON.toStringJS]
  simp only [JSON.parse_serialize _ (wellFormed_indexEntries b 0)]
  exact jsonObjToTypedArray_indexEntries host b

/-! ## Lemmas: the nonce -/

theorem KeyRing.randomValuesArray_ok (rng : RandomSource) (length : Option Nat)
    (f : Nat → Byte) (h : rng.draw (orDefault length 32) = .ok f) :
    KeyRing.randomValuesArray rng length = .ok ((List.range (orDefault length 32)).map f) := by
  simp [KeyRing.randomValuesArray, getRandomValues, newUint8Array, h]

theorem KeyRing.encrypt_nonce (host : Host) (rng : RandomSource) (data rec : Obj) (key : Bytes)
    (h : KeyRing.encrypt host rng data key = .ok rec) :
    ∃ f, rng.draw 32 = .ok f ∧
      Obj.get rec (js "nonce") = JSValue.uint8 ((List.range 32).map f) := by
  rw [KeyRing.encrypt_eq] at h
  split_ifs at h with hproto hhop
  cases hdraw : rng.draw 32 with
  | error e => rw [hdraw] at h; simp at h
  | ok f =>
    rw [hdraw] at h
    simp only at h
    split at h
    · simp at h
    · simp only [Except.ok.injEq] at h
      refine ⟨f, rfl, ?_⟩
      rw [← h, Obj.get, Props.get?_set_ne _ _ _ _ (Ne.symm key_ne_nonce_contents),
        Props.get?_set_self]

/-! ## Lemmas: the outcome of `KeyRing.encrypt` -/

theorem KeyRing.encrypt_set_nonce (host : Host) (rng : RandomSource) (data : Obj) (key : Bytes)
    (hobj : (Props.keys data).Nodup) (v : JSValue) :
    KeyRing.encrypt host rng (Props.set data (js "nonce") v) key
      = KeyRing.encrypt host rng data key := by
  rw [KeyRing.encrypt_eq, KeyRing.encrypt_eq,
    Object.assign_nil _ (Props.keys_set_nodup data (js "nonce") v hobj),
    Object.assign_nil _ hobj,
    Props.has_set_ne _ _ _ _ key_ne_nonce_proto, Props.has_set_ne _ _ _ _ key_ne_nonce_hop,
    Props.delete_set_ne _ _ _ _ key_ne_nonce_property]
  simp only [Props.set_set]

theorem KeyRing.encrypt_inv (host : Host) (rng : RandomSource) (data rec : Obj) (key : Bytes)
    (hobj : (Props.keys data).Nodup) (h : KeyRing.encrypt host rng data key = .ok rec) :
    ∃ nonce ct, KeyRing.randomValuesArray rng none = .ok nonce ∧
      Obj.get rec (js "nonce") = JSValue.uint8 nonce ∧
      aesEncrypt host (JSON.stringify (Obj.get data (js "contents"))) key nonce = .ok ct ∧
      Obj.get rec (js "contents") = JSValue.uint8 ct := by
  rw [KeyRing.encrypt_eq, Object.assign_nil _ hobj] at h
  split_ifs at h with hproto hhop
  cases hdraw : rng.draw 32 with
  | error e => rw [hdraw] at h; simp at h
  | ok f =>
    rw [hdraw] at h
    simp only at h
    have hget : Obj.get (Props.set (Props.delete data (js "property")) (js "nonce")
        (JSValue.uint8 ((List.range 32).map f))) (js "contents") = Obj.get data (js "contents") := by
      rw [Obj.get, Obj.get, Props.get?_set_ne _ _ _ _ key_ne_nonce_contents,
        Props.get?_delete_ne _ _ _ (Ne.symm key_ne_contents_property)]
    rw [hget] at h
    cases henc : host.AES_GCM_encrypt (JSON.stringify (Obj.get data (js "contents"))) key
        ((List.range 32).map f) none 16 with
    | error e => rw [henc] at h; simp at h
    | ok ct =>
      rw [henc] at h
      simp only [Except.ok.injEq] at h
      refine ⟨_, ct, KeyRing.randomValuesArray_ok rng none f hdraw, ?_, henc, ?_⟩
      · rw [← h, Obj.get, Props.get?_set_ne _ _ _ _ (Ne.symm key_ne_nonce_contents),
          Props.get?_set_self]
        rfl
      · rw [← h, Obj.get, Props.get?_set_self]

/-! ## Lemmas: the outcome of `KeyRing.decrypt` -/

theorem KeyRing.decrypt_of_fields (host : Host) (data : Obj) (key nonce contents : Bytes)
    (hnonce : fieldBytes host data (js "nonce") = .ok nonce)
    (hcontents : fieldBytes host data (js "contents") = .ok contents) :
    KeyRing.decrypt host (some data) key =
      match aesDecrypt host contents key nonce with
      | .error e => .error e
      | .ok decr =>
        match JSON.parse (fromCharCode decr) with
        | .error e => .error e
        | .ok parsed =>
          .ok [(js "nonce", JSValue.uint8 nonce), (js "contents", JSValue.json parsed)] := by
  simp only [KeyRing.decrypt, hnonce, hcontents]
  cases aesDecrypt host contents key nonce with
  | error e => rfl
  | ok decr =>
    simp only
    cases JSON.parse (fromCharCode decr) with
    | error e => rfl
    | ok parsed =>
      simp only [Object.assign, List.foldl_cons, List.foldl_nil, Props.set,
        key_ne_nonce_contents, if_false, if_true]

/-! ## Lemmas: the digest -/

set_option maxRecDepth 100000

theorem SHA256.digest_length (msg : List Nat) : (SHA256.digest msg).length = 32 := by
  simp [SHA256.digest, SHA256.bytesOfWord]

/-- The digest of the text `abc` is the value published with FIPS 180-4. -/
theorem SHA256.bytes_abc :
    SHA256.bytes (js "abc") =
      [0xba, 0x78, 0x16, 0xbf, 0x8f, 0x01, 0xcf, 0xea, 0x41, 0x41, 0x40, 0xde, 0x5d, 0xae, 0x22,
        0x23, 0xb0, 0x03, 0x61, 0xa3, 0x96, 0x17, 0x7a, 0x9c, 0xb4, 0x10, 0xff, 0x61, 0xf2, 0x00,
        0x15, 0xad] := by
  decide

/-- The digest of the empty text is the value published with FIPS 180-4. -/
theorem SHA256.bytes_empty :
    SHA256.bytes [] =
      [0xe3, 0xb0, 0xc4, 0x42, 0x98, 0xfc, 0x1c, 0x14, 0x9a, 0xfb, 0xf4, 0xc8, 0x99, 0x6f, 0xb9,
        0x24, 0x27, 0xae, 0x41, 0xe4, 0x64, 0x9b, 0x93, 0x4c, 0xa4, 0x95, 0x99, 0x1b, 0x78, 0x52,
        0xb8, 0x55] := by
  decide

/-! ## Lemmas: the round trip -/

theorem bytesOfString?_of_small (s : JSString) (h : ∀ u ∈ s, u < 256) :
    ∃ pt, bytesOfString? s = some pt ∧ fromCharCode pt = s := by
  induction s with
  | nil => exact ⟨[], rfl, rfl⟩
  | cons c r ih =>
    obtain ⟨pt, hpt, hfrom⟩ := ih (fun u hu => h u (List.mem_cons_of_mem c hu))
    have hc : c < 256 := h c (List.mem_cons_self c r)
    refine ⟨⟨c, hc⟩ :: pt, ?_, ?_⟩
    · rw [bytesOfString?, dif_pos hc, hpt]
    · simp only [fromCharCode, List.map_cons] at hfrom ⊢
      rw [hfrom]

theorem processAuthorization_eq_ok_iff (host : Host) (uid email password : JSString)
    (stored : Option Obj) (session : Session) :
    processAuthorization host uid email password stored = .ok session ↔
      KeyRing.key host ((uid ++ email) ++ password) = .ok session.key ∧
      KeyRing.decrypt host stored session.key = .ok session.data := by
  unfold processAuthorization sessionKey
  cases hk : KeyRing.key host ((uid ++ email) ++ password) with
  | error e => simp
  | ok key =>
    simp only
    cases hd : KeyRing.decrypt host stored key with
    | error e =>
      simp only [Except.ok.injEq, false_iff, not_and, reduceCtorEq]
      intro hkey
      rw [← hkey, hd]
      simp
    | ok data =>
      simp only [Except.ok.injEq]
      constructor
      · intro h
        subst h
        exact ⟨rfl, hd⟩
      · rintro ⟨h1, h2⟩
        subst h1
        rw [hd] at h2
        cases session
        simp only [Except.ok.injEq] at h2
        simp [h2]

/-! ## Lemmas: the heap -/

theorem Heap.read_append_new (heap : Heap) (o : Obj) :
    Heap.read (heap ++ [o]) heap.length = some o := by
  simp [Heap.read]

theorem Heap.read_append_old (heap : Heap) (o : Obj) (r : Ref) (h : r < heap.length) :
    Heap.read (heap ++ [o]) r = Heap.read heap r := by
  simp [Heap.read, List.getElem?_append_left h]

theorem Heap.write_append_new (heap : Heap) (o o1 : Obj) :
    Heap.write (heap ++ [o]) heap.length o1 = heap ++ [o1] := by
  simp [Heap.write]

theorem Heap.modify_append_new (heap : Heap) (o : Obj) (f : Obj → Except JSError Obj) :
    Heap.modify (heap ++ [o]) heap.length f =
      match f o with
      | .error e => .error e
      | .ok o1 => .ok (heap ++ [o1]) := by
  rw [Heap.modify, Heap.read_append_new]
  simp only
  cases f o with
  | error e => rfl
  | ok o1 => simp only [Heap.write_append_new]

theorem stripLoopInHeap_append_new (ps : List JSString) :
    ∀ (heap : Heap) (o : Obj),
      stripLoopInHeap ps (heap ++ [o]) heap.length =
        match stripLoop ps o with
        | .error e => .error e
        | .ok o1 => .ok (heap ++ [o1]) := by
  induction ps with
  | nil => intro heap o; rfl
  | cons p ps ih =>
    intro heap o
    rw [stripLoopInHeap, Heap.modify_append_new, stripLoop]
    cases stripTurn o p with
    | error e => rfl
    | ok o1 => exact ih heap o1

/-- The heap version of `KeyRing.encrypt` allocates one object, which holds what
the function on values returns, and leaves the rest of the heap as it is. -/
theorem KeyRing.encryptInHeap_eq (host : Host) (rng : RandomSource) (heap : Heap) (data : Ref)
    (key : Bytes) (d : Obj) (hd : Heap.read heap data = some d) :
    KeyRing.encryptInHeap host rng heap data key =
      match KeyRing.encrypt host rng d key with
      | .error e => .error e
      | .ok record => .ok (heap.length, heap ++ [record]) := by
  unfold KeyRing.encryptInHeap KeyRing.encrypt
  rw [hd]
  simp only
  split_ifs with hproto
  · rfl
  · simp only [Heap.alloc, Heap.read_append_new, stripLoopInHeap_append_new]
    cases stripLoop (Props.keys (Object.assign [] d)) (Object.assign [] d) with
    | error e => rfl
    | ok o1 =>
      simp only
      cases KeyRing.randomValuesArray rng none with
      | error e => rfl
      | ok nonce =>
        simp only [Heap.modify_append_new, Heap.read_append_new]
        cases aesEncrypt host (JSON.stringify (Obj.get (Props.set o1 (js "nonce")
            (JSValue.uint8 nonce)) (js "contents"))) key nonce with
        | error e => rfl
        | ok encrypted => rfl

/-! ## Lemmas: successive calls of `KeyRing.encrypt` -/

/-- What a record returned by `KeyRing.encrypt` consists of: the nonce is the draw
of the call, the contents the ciphertext that the library returned under that
nonce, and the whole record is a function of these two. -/
theorem KeyRing.encrypt_record (host : Host) (rng : RandomSource) (data rec : Obj) (key : Bytes)
    (h : KeyRing.encrypt host rng data key = .ok rec) :
    ∃ nonce ct, KeyRing.randomValuesArray rng none = .ok nonce ∧ nonce.length = 32 ∧
      host.AES_GCM_encrypt
        (JSON.stringify (Obj.get (Props.set (Props.delete (Object.assign [] data) (js "property"))
          (js "nonce") (JSValue.uint8 nonce)) (js "contents"))) key nonce none 16 = .ok ct ∧
      rec = Props.set (Props.set (Props.delete (Object.assign [] data) (js "property"))
        (js "nonce") (JSValue.uint8 nonce)) (js "contents") (JSValue.uint8 ct) ∧
      Obj.get rec (js "nonce") = JSValue.uint8 nonce ∧
      Obj.get rec (js "contents") = JSValue.uint8 ct := by
  rw [KeyRing.encrypt_eq] at h
  split_ifs at h with hproto hhop
  cases hdraw : rng.draw 32 with
  | error e => rw [hdraw] at h; simp at h
  | ok f =>
    rw [hdraw] at h
    simp only at h
    split at h
    · simp at h
    · rename_i ct henc
      simp only [Except.ok.injEq] at h
      refine ⟨_, ct, KeyRing.randomValuesArray_ok rng none f hdraw, by simp [orDefault], henc,
        h.symm, ?_, ?_⟩
      · rw [← h, Obj.get, Props.get?_set_ne _ _ _ _ (Ne.symm key_ne_nonce_contents),
          Props.get?_set_self]
        rfl
      · rw [← h, Obj.get, Props.get?_set_self]

theorem sealedHost_rejectsOtherKey : sealedHost.RejectsOtherKey := by
  intro p key1 key2 nonce ct hk1 hk2 hn hne henc
  have henc' : (match p with
      | none => Except.error JSError.IllegalArgumentError
      | some s =>
        match bytesOfString? s with
        | none => Except.error JSError.IllegalArgumentError
        | some pt => sealedSeal pt key1 nonce) = Except.ok ct := henc
  cases p with
  | none => simp at henc'
  | some s =>
    simp only at henc'
    cases hb : bytesOfString? s with
    | none => rw [hb] at henc'; simp at henc'
    | some pt =>
      rw [hb] at henc'
      simp only [sealedSeal, hk1, hn, and_self, if_true, Except.ok.injEq] at henc'
      show sealedOpen ct key2 nonce = _
      have htake : ct.take 64 = key1 ++ nonce := by
        rw [← henc', List.append_assoc]
        have hlen : (key1 ++ nonce).length = 64 := by simp [hk1, hn]
        rw [← List.append_assoc, ← hlen, List.take_left]
      have hneq : ¬ (key1 ++ nonce = key2 ++ nonce) := by
        intro h
        exact hne (List.append_cancel_right h)
      simp only [sealedOpen, hk2, hn, and_self, if_true, htake, hneq, if_false]

theorem sealedHost_aeadCorrect : sealedHost.AeadCorrect := by
  intro s key nonce hs hkey hn
  obtain ⟨pt, hpt, hfrom⟩ := bytesOfString?_of_small s hs
  refine ⟨key ++ nonce ++ pt, pt, ?_, ?_, hfrom⟩
  · show (match bytesOfString? s with
      | none => Except.error JSError.IllegalArgumentError
      | some pt => sealedSeal pt key nonce) = _
    rw [hpt]
    simp [sealedSeal, hkey, hn]
  · show sealedOpen (key ++ nonce ++ pt) key nonce = _
    have hlen : (key ++ nonce).length = 64 := by simp [hkey, hn]
    have htake : (key ++ nonce ++ pt).take 64 = key ++ nonce := by
      rw [← hlen, List.take_left]
    have hdrop : (key ++ nonce ++ pt).drop 64 = pt := by
      rw [← hlen, List.drop_left]
    simp only [sealedOpen, hkey, hn, and_self, if_true, htake, hdrop]

theorem decrypt_other_key (host : Host) (rng : RandomSource) (data rec : Obj)
    (key1 key2 : Bytes) (hlib : host.RejectsOtherKey) (hk1 : key1.length = 32)
    (hk2 : key2.length = 32) (hne : key1 ≠ key2)
    (henc : KeyRing.encrypt host rng data key1 = .ok rec) :
    KeyRing.decrypt host (some (Firebase.write rec)) key2 = .error JSError.SecurityError := by
  obtain ⟨nonce, ct, _, hlen, hseal, _, hgn, hgc⟩ := KeyRing.encrypt_record host rng data rec key1 henc
  have hrej := hlib _ key1 key2 nonce ct hk1 hk2 hlen hne hseal
  rw [KeyRing.decrypt_of_fields host (Firebase.write rec) key2 nonce ct
    (fieldBytes_write host rec (js "nonce") nonce (Or.inl rfl) hgn)
    (fieldBytes_write host rec (js "contents") ct (Or.inr rfl) hgc), aesDecrypt, hrej]

theorem scenarioKey_length : scenarioKey.length = 32 := SHA256.digest_length _

theorem scenarioWrongKey_length : scenarioWrongKey.length = 32 := SHA256.digest_length _

theorem scenarioKey_ne : scenarioKey ≠ scenarioWrongKey := by decide

/-! ## The claims -/

set_option maxRecDepth 100000

/-- C2 (the code departs from the claim). On the data object
`\x7bcontents: ..., extra: "x"\x7d` the record returned by `KeyRing.encrypt` has the
three fields `contents`, `extra`, `nonce`: the extraneous property `extra` is
not stripped, because the loop executes `delete obj.property`. -/
theorem encrypt_keeps_extraneous_property :
    (KeyRing.encrypt binaryHost sampleRandom extraData sampleKey).map Props.keys
      = .ok [js "contents", js "extra", js "nonce"] := by
  rfl

/-- C3. Fresh nonce, never the caller's.  For a data object (distinct property
names) and a key: assigning any value to the `nonce` of the input leaves the
outcome of `KeyRing.encrypt` unchanged for the same random draw; and in every
record returned, the `nonce` is the array that `KeyRing.randomValuesArray()` drew
during the call, which is also the nonce handed to `aesEncrypt` together with
`JSON.stringify(data.contents)`. -/
theorem encrypt_nonce_is_fresh (host : Host) (rng : RandomSource) (data : Obj) (key : Bytes)
    (hobj : (Props.keys data).Nodup) :
    (∀ v, KeyRing.encrypt host rng (Props.set data (js "nonce") v) key
      = KeyRing.encrypt host rng data key) ∧
    (∀ rec, KeyRing.encrypt host rng data key = .ok rec →
      ∃ nonce ct, KeyRing.randomValuesArray rng none = .ok nonce ∧
        Obj.get rec (js "nonce") = JSValue.uint8 nonce ∧
        aesEncrypt host (JSON.stringify (Obj.get data (js "contents"))) key nonce = .ok ct ∧
        Obj.get rec (js "contents") = JSValue.uint8 ct) :=
  ⟨fun v => KeyRing.encrypt_set_nonce host rng data key hobj v,
    fun rec h => KeyRing.encrypt_inv host rng data rec key hobj h⟩

/-- C3 at a concrete input: the data object `sampleData`, whose nonce is replaced
by `undefined`, under `binaryHost`, `sampleRandom` and `sampleKey`. -/
theorem encrypt_nonce_is_fresh_witness :
    (Props.keys sampleData).Nodup ∧
    KeyRing.encrypt binaryHost sampleRandom
        (Props.set sampleData (js "nonce") JSValue.undefined) sampleKey
      = KeyRing.encrypt binaryHost sampleRandom sampleData sampleKey ∧
    ∃ rec, KeyRing.encrypt binaryHost sampleRandom sampleData sampleKey = .ok rec ∧
      ∃ nonce ct, KeyRing.randomValuesArray sampleRandom none = .ok nonce ∧
        Obj.get rec (js "nonce") = JSValue.uint8 nonce ∧
        aesEncrypt binaryHost (JSON.stringify (Obj.get sampleData (js "contents"))) sampleKey nonce
          = .ok ct ∧
        Obj.get rec (js "contents") = JSValue.uint8 ct :=
  ⟨by decide,
    (encrypt_nonce_is_fresh binaryHost sampleRandom sampleData sampleKey (by decide)).1 _,
    ⟨_, rfl,
      (encrypt_nonce_is_fresh binaryHost sampleRandom sampleData sampleKey (by decide)).2 _ rfl⟩⟩

/-- C4. Authentication failure is surfaced.  For every record (not `null`) whose
two fields are reconstructed to bytes and every key: when the AEAD primitive
rejects the ciphertext with an error, `KeyRing.decrypt` fails with that very
error; it returns no object at all (so neither the empty content of the cold
start nor any other content), and when the error of the primitive is not a
`SyntaxError` the failure is not the `SyntaxError` of `JSON.parse`. -/
theorem decrypt_surfaces_rejection (host : Host) (data : Obj) (key nonce contents : Bytes)
    (e : JSError)
    (hnonce : fieldBytes host data (js "nonce") = .ok nonce)
    (hcontents : fieldBytes host data (js "contents") = .ok contents)
    (hreject : aesDecrypt host contents key nonce = .error e) :
    KeyRing.decrypt host (some data) key = .error e ∧
    (∀ out, KeyRing.decrypt host (some data) key ≠ .ok out) ∧
    (e ≠ JSError.SyntaxError → KeyRing.decrypt host (some data) key ≠ .error JSError.SyntaxError) := by
  have h : KeyRing.decrypt host (some data) key = .error e := by
    rw [KeyRing.decrypt_of_fields host data key nonce contents hnonce hcontents, hreject]
  refine ⟨h, ?_, ?_⟩
  · intro out hout
    rw [h] at hout
    cases hout
  · intro hne hsyn
    rw [h] at hsyn
    exact hne (Except.error.inj hsyn)

/-- C4 at a concrete input: the record `tamperedRecord`, whose tag does not verify
under `sampleKey`; the stand-in cipher rejects it with `SecurityError`. -/
theorem decrypt_surfaces_rejection_witness :
    fieldBytes binaryHost tamperedRecord (js "nonce") = .ok sampleNonce ∧
    fieldBytes binaryHost tamperedRecord (js "contents")
      = .ok (123 :: 125 :: List.replicate 16 0) ∧
    aesDecrypt binaryHost (123 :: 125 :: List.replicate 16 0) sampleKey sampleNonce
      = .error JSError.SecurityError ∧
    KeyRing.decrypt binaryHost (some tamperedRecord) sampleKey = .error JSError.SecurityError :=
  ⟨rfl, rfl, rfl,
    (decrypt_surfaces_rejection binaryHost tamperedRecord sampleKey sampleNonce
      (123 :: 125 :: List.replicate 16 0) JSError.SecurityError rfl rfl rfl).1⟩

/-- C5. Cold start: for every key, `KeyRing.decrypt` applied to the absent record
(`null`) returns, without error, the object whose `contents` is the empty
mapping; the result is the same for every key and for every host, so no function
of the library takes part in it. -/
theorem decrypt_cold_start (host host' : Host) (key key' : Bytes) :
    KeyRing.decrypt host none key = .ok [(js "contents", JSValue.json (JSON.obj []))] ∧
    KeyRing.decrypt host none key = KeyRing.decrypt host' none key' :=
  ⟨rfl, rfl⟩

/-- C6. Wire format: every byte sequence (any length, each element in 0..255) is
reconstructed exactly.  `JSON.stringify` of the `Uint8Array` yields a text,
`JSON.parse` accepts it, and `jsonObjToTypedArray` of the parsed value is the
original sequence; the same holds along the stored path, where `Firebase.write`
serializes the field and `KeyRing.decrypt` reads it back. -/
theorem wire_format_byte_exact (host : Host) (b : Bytes) :
    (∃ text parsed, JSON.stringify (JSValue.uint8 b) = some text ∧
      JSON.parse text = .ok parsed ∧ jsonObjToTypedArray host parsed = .ok b) ∧
    (∀ data : Obj, Obj.get data (js "nonce") = JSValue.uint8 b →
      fieldBytes host (Firebase.write data) (js "nonce") = .ok b) ∧
    (∀ data : Obj, Obj.get data (js "contents") = JSValue.uint8 b →
      fieldBytes host (Firebase.write data) (js "contents") = .ok b) :=
  ⟨⟨_, _, rfl, JSON.parse_serialize _ (wellFormed_indexEntries b 0),
      jsonObjToTypedArray_indexEntries host b⟩,
    fun data h => fieldBytes_write host data _ b (Or.inl rfl) h,
    fun data h => fieldBytes_write host data _ b (Or.inr rfl) h⟩

/-- C7. Key derivation.  With `asmCrypto.SHA256.bytes` as the specification
describes it, `KeyRing.key(s)` succeeds for every string `s`, the empty string
included, and returns the SHA-256 digest of the UTF-8 bytes of `s`, which has 32
bytes; two calls with the same string therefore return the same key. -/
theorem key_is_sha256_of_utf8 (host : Host)
    (hlib : ∀ s, host.SHA256_bytes s = .ok (SHA256.bytes s)) (string : JSString) :
    KeyRing.key host string = .ok (SHA256.digest (utf8Encode string)) ∧
    (SHA256.digest (utf8Encode string)).length = 32 ∧
    KeyRing.key host [] = .ok (SHA256.digest []) ∧
    ∀ other, other = string → KeyRing.key host other = KeyRing.key host string :=
  ⟨hlib string, SHA256.digest_length _, hlib [], fun _ h => by rw [h]⟩

/-- C7 at a concrete input: the credentials of the specification's scenario under
`binaryHost`, whose digest function is the one of the specification. -/
theorem key_is_sha256_of_utf8_witness :
    (∀ s, binaryHost.SHA256_bytes s = .ok (SHA256.bytes s)) ∧
    KeyRing.key binaryHost (js "uid123a@b.compassword1")
      = .ok (SHA256.digest (utf8Encode (js "uid123a@b.compassword1"))) :=
  ⟨fun _ => rfl, (key_is_sha256_of_utf8 binaryHost (fun _ => rfl) (js "uid123a@b.compassword1")).1⟩

/-- C8. The record that `Firebase.write` hands to the remote store has exactly the
two fields `nonce` and `contents`, in this order, whose values are
`JSON.stringify(data.nonce)` and `JSON.stringify(data.contents)`, whatever other
properties the data object carries. -/
theorem write_record_has_two_fields (data : Obj) :
    Props.keys (Firebase.write data) = [js "nonce", js "contents"] ∧
    Obj.get (Firebase.write data) (js "nonce")
      = stringOrUndefined (JSON.stringify (Obj.get data (js "nonce"))) ∧
    Obj.get (Firebase.write data) (js "contents")
      = stringOrUndefined (JSON.stringify (Obj.get data (js "contents"))) ∧
    ∀ name, name ≠ js "nonce" → name ≠ js "contents" →
      Props.has (Firebase.write data) name = false := by
  refine ⟨rfl, Firebase.write_get_nonce data, Firebase.write_get_contents data, ?_⟩
  · intro name h1 h2
    simp [Firebase.write, Props.has, Ne.symm h1, Ne.symm h2]

/-- C9 (counterexample). The record `emptyTextRecord` verifies under `sampleKey`
and decrypts to the empty text, and `KeyRing.decrypt` fails on it with the
`SyntaxError` of `JSON.parse`: it does not return an empty content. -/
theorem decrypt_empty_text_fails :
    aesDecrypt binaryHost (standInTag sampleKey sampleNonce []) sampleKey sampleNonce = .ok [] ∧
    KeyRing.decrypt binaryHost (some emptyTextRecord) sampleKey = .error JSError.SyntaxError :=
  ⟨rfl, rfl⟩

/-- C9 (amended). For every key and every record (not `null`) whose contents
verifies and decrypts to an empty text, `KeyRing.decrypt` fails with the
`SyntaxError` that `JSON.parse` throws on the empty text; it returns no content. -/
theorem decrypt_empty_text_is_syntax_error (host : Host) (data : Obj)
    (key nonce contents : Bytes)
    (hnonce : fieldBytes host data (js "nonce") = .ok nonce)
    (hcontents : fieldBytes host data (js "contents") = .ok contents)
    (hempty : aesDecrypt host contents key nonce = .ok []) :
    KeyRing.decrypt host (some data) key = .error JSError.SyntaxError := by
  rw [KeyRing.decrypt_of_fields host data key nonce contents hnonce hcontents, hempty]
  rfl

/-- C9 (amended) at a concrete input: the record `emptyTextRecord`. -/
theorem decrypt_empty_text_is_syntax_error_witness :
    fieldBytes binaryHost emptyTextRecord (js "nonce") = .ok sampleNonce ∧
    fieldBytes binaryHost emptyTextRecord (js "contents")
      = .ok (standInTag sampleKey sampleNonce []) ∧
    aesDecrypt binaryHost (standInTag sampleKey sampleNonce []) sampleKey sampleNonce = .ok [] ∧
    KeyRing.decrypt binaryHost (some emptyTextRecord) sampleKey = .error JSError.SyntaxError :=
  ⟨rfl, rfl, rfl,
    decrypt_empty_text_is_syntax_error binaryHost emptyTextRecord sampleKey sampleNonce
      (standInTag sampleKey sampleNonce []) rfl rfl rfl⟩

/-- C10 (counterexample). A length of `0` does not give an empty array: the
expression `length || 32` takes the default, and the array has 32 bytes. -/
theorem randomValuesArray_zero_gives_32 :
    (KeyRing.randomValuesArray sampleRandom (some 0)).map List.length = .ok 32 := by
  rfl

/-- C10 (amended). For every length `n ≥ 1` for which the random source delivers,
`KeyRing.randomValuesArray(n)` returns exactly `n` bytes; when the length is
omitted and the source delivers 32 bytes, it returns exactly 32 bytes; and the
nonce of every record produced by `KeyRing.encrypt` is 32 bytes long. -/
theorem randomValuesArray_length (host : Host) (rng : RandomSource) :
    (∀ n, 1 ≤ n → (∃ f, rng.draw n = .ok f) →
      ∃ out, KeyRing.randomValuesArray rng (some n) = .ok out ∧ out.length = n) ∧
    ((∃ f, rng.draw 32 = .ok f) →
      ∃ out, KeyRing.randomValuesArray rng none = .ok out ∧ out.length = 32) ∧
    (∀ data key rec, KeyRing.encrypt host rng data key = .ok rec →
      ∃ nonce, Obj.get rec (js "nonce") = JSValue.uint8 nonce ∧ nonce.length = 32) := by
  refine ⟨?_, ?_, ?_⟩
  · rintro n hn ⟨f, hf⟩
    have hd : orDefault (some n) 32 = n := by
      cases n with
      | zero => omega
      | succ m => rfl
    refine ⟨_, KeyRing.randomValuesArray_ok rng (some n) f (by rw [hd]; exact hf), ?_⟩
    simp [hd]
  · rintro ⟨f, hf⟩
    exact ⟨_, KeyRing.randomValuesArray_ok rng none f hf, by simp [orDefault]⟩
  · intro data key rec h
    obtain ⟨f, _, hg⟩ := KeyRing.encrypt_nonce host rng data rec key h
    exact ⟨_, hg, by simp⟩

/-- C10 (amended), at a concrete input: five bytes asked of `sampleRandom`. -/
theorem randomValuesArray_length_witness :
    (1 ≤ 5 ∧ (∃ f, sampleRandom.draw 5 = .ok f) ∧
      ∃ out, KeyRing.randomValuesArray sampleRandom (some 5) = .ok out ∧ out.length = 5) ∧
    ((∃ f, sampleRandom.draw 32 = .ok f) ∧
      ∃ out, KeyRing.randomValuesArray sampleRandom none = .ok out ∧ out.length = 32) ∧
    (∃ rec, KeyRing.encrypt binaryHost sampleRandom extraData sampleKey = .ok rec ∧
      ∃ nonce, Obj.get rec (js "nonce") = JSValue.uint8 nonce ∧ nonce.length = 32) :=
  ⟨⟨by decide, ⟨_, rfl⟩,
      (randomValuesArray_length binaryHost sampleRandom).1 5 (by decide) ⟨_, rfl⟩⟩,
    ⟨⟨_, rfl⟩, (randomValuesArray_length binaryHost sampleRandom).2.1 ⟨_, rfl⟩⟩,
    ⟨_, rfl, (randomValuesArray_length binaryHost sampleRandom).2.2 extraData sampleKey _ rfl⟩⟩

/-- C11. Wrong key rejection.  With an AEAD primitive that rejects under another
key what it encrypted (as the specification describes it), for all 32-byte keys
`k1 ≠ k2` and every data object on which `KeyRing.encrypt` under `k1` returns a
record: `KeyRing.decrypt` of that record, in the form in which `Firebase.write`
stores it, under `k2` fails with the error of the failed integrity check and
returns no content. -/
theorem decrypt_rejects_other_key (host : Host) (rng : RandomSource) (data rec : Obj)
    (key1 key2 : Bytes) (hlib : host.RejectsOtherKey) (hk1 : key1.length = 32)
    (hk2 : key2.length = 32) (hne : key1 ≠ key2)
    (henc : KeyRing.encrypt host rng data key1 = .ok rec) :
    KeyRing.decrypt host (some (Firebase.write rec)) key2 = .error JSError.SecurityError ∧
    ∀ out, KeyRing.decrypt host (some (Firebase.write rec)) key2 ≠ .ok out := by
  have h := decrypt_other_key host rng data rec key1 key2 hlib hk1 hk2 hne henc
  refine ⟨h, ?_⟩
  intro out hout
  rw [h] at hout
  cases hout

/-- C11 at the input of the claim: the content `sampleContent`, the key derived
from `uid123`, `a@b.com`, `password1` and the key derived with `wrongpass`,
under `sealedHost` and `sampleRandom`. -/
theorem decrypt_rejects_other_key_witness :
    sealedHost.RejectsOtherKey ∧ scenarioKey.length = 32 ∧ scenarioWrongKey.length = 32 ∧
    scenarioKey ≠ scenarioWrongKey ∧
    KeyRing.key sealedHost ((js "uid123" ++ js "a@b.com") ++ js "password1") = .ok scenarioKey ∧
    KeyRing.key sealedHost ((js "uid123" ++ js "a@b.com") ++ js "wrongpass")
      = .ok scenarioWrongKey ∧
    roundTrip sealedHost sampleRandom scenarioData scenarioKey = .ok (JSValue.json sampleContent) ∧
    ∃ rec, KeyRing.encrypt sealedHost sampleRandom scenarioData scenarioKey = .ok rec ∧
      KeyRing.decrypt sealedHost (some (Firebase.write rec)) scenarioWrongKey
        = .error JSError.SecurityError :=
  ⟨sealedHost_rejectsOtherKey, scenarioKey_length, scenarioWrongKey_length, scenarioKey_ne, rfl,
    rfl, rfl, _, rfl,
    (decrypt_rejects_other_key sealedHost sampleRandom scenarioData _ scenarioKey scenarioWrongKey
      sealedHost_rejectsOtherKey scenarioKey_length scenarioWrongKey_length scenarioKey_ne rfl).1⟩

/-- C13. Session key material.  The sign-in or registration flow ends with a
session exactly when `KeyRing.key` applied to `uid + email + password` (in
this order, nothing in between) returns the key of the session and
`KeyRing.decrypt` of the loaded record under that key returns its data; and every
later synchronisation of the session encrypts under the same key and hands it on
to the next form. -/
theorem session_key_is_derived_from_credentials (host : Host) (uid email password : JSString)
    (stored : Option Obj) (session : Session) :
    (processAuthorization host uid email password stored = .ok session ↔
      KeyRing.key host ((uid ++ email) ++ password) = .ok session.key ∧
      KeyRing.decrypt host stored session.key = .ok session.data) ∧
    (∀ (rng : RandomSource) (record : Obj) (next : Session),
      syncClick host rng session = .ok (record, next) →
        next.key = session.key ∧
        ∃ encr, KeyRing.encrypt host rng session.data session.key = .ok encr ∧
          record = Firebase.write encr) := by
  refine ⟨processAuthorization_eq_ok_iff host uid email password stored session, ?_⟩
  intro rng record next h
  unfold syncClick at h
  cases henc : KeyRing.encrypt host rng session.data session.key with
  | error e => rw [henc] at h; simp at h
  | ok encr =>
    rw [henc] at h
    simp only [Except.ok.injEq, Prod.mk.injEq] at h
    exact ⟨by rw [← h.2], encr, rfl, h.1.symm⟩

/-- C13 at a concrete input: the credentials of the specification's scenario, a
first sign-in (no stored record), and one synchronisation. -/
theorem session_key_is_derived_from_credentials_witness :
    processAuthorization binaryHost (js "uid123") (js "a@b.com") (js "password1") none
      = .ok ⟨[(js "contents", JSValue.json (JSON.obj []))], scenarioKey⟩ ∧
    KeyRing.key binaryHost ((js "uid123" ++ js "a@b.com") ++ js "password1") = .ok scenarioKey ∧
    ∃ record next,
      syncClick binaryHost sampleRandom ⟨[(js "contents", JSValue.json (JSON.obj []))], scenarioKey⟩
        = .ok (record, next) ∧ next.key = scenarioKey :=
  ⟨rfl,
    ((session_key_is_derived_from_credentials binaryHost (js "uid123") (js "a@b.com")
      (js "password1") none ⟨[(js "contents", JSValue.json (JSON.obj []))], scenarioKey⟩).1.mp
        rfl).1,
    ⟨_, _, rfl,
      ((session_key_is_derived_from_credentials binaryHost (js "uid123") (js "a@b.com")
        (js "password1") none ⟨[(js "contents", JSValue.json (JSON.obj []))], scenarioKey⟩).2
          sampleRandom _ _ rfl).1⟩⟩

/-- C14. `KeyRing.encrypt` does not modify its argument.  With the caller's data
object in the heap: the call returns whenever the function on values does; and
when it returns, the returned object is a newly allocated one, different from
the caller's; the caller's data object, and every other object that existed
before the call, has the properties and values it had before (`contents` is
still the plain content, `nonce` is unchanged); the fresh nonce and the
ciphertext are on the returned object only, which holds what `KeyRing.encrypt`
yields as a value. -/
theorem encrypt_leaves_argument_unchanged (host : Host) (rng : RandomSource) (heap : Heap)
    (data : Ref) (key : Bytes) (d : Obj) (hd : Heap.read heap data = some d) :
    (∀ record, KeyRing.encrypt host rng d key = .ok record →
      ∃ obj heap', KeyRing.encryptInHeap host rng heap data key = .ok (obj, heap')) ∧
    (∀ obj heap', KeyRing.encryptInHeap host rng heap data key = .ok (obj, heap') →
      Heap.read heap' data = some d ∧ obj ≠ data ∧
      (∀ r, r < heap.length → Heap.read heap' r = Heap.read heap r) ∧
      ∃ record, KeyRing.encrypt host rng d key = .ok record ∧
        Heap.read heap' obj = some record) := by
  have hlt : data < heap.length := by
    unfold Heap.read at hd
    exact (List.get?_eq_some.mp hd).1
  have heq := KeyRing.encryptInHeap_eq host rng heap data key d hd
  refine ⟨?_, ?_⟩
  · intro record hrec
    rw [hrec] at heq
    exact ⟨_, _, heq⟩
  · intro obj heap' h
    rw [heq] at h
    cases henc : KeyRing.encrypt host rng d key with
    | error e => rw [henc] at h; simp at h
    | ok record =>
      rw [henc] at h
      simp only [Except.ok.injEq, Prod.mk.injEq] at h
      obtain ⟨h1, h2⟩ := h
      subst h1 h2
      have hsame : Heap.read (heap ++ [record]) data = some d := by
        rw [Heap.read_append_old heap record data hlt]; exact hd
      exact ⟨hsame, Nat.ne_of_gt hlt, fun r hr => Heap.read_append_old heap record r hr, record,
        rfl, Heap.read_append_new heap record⟩

/-- C14 at a concrete input: a heap that holds `sampleData` at address 0, under
`binaryHost`, `sampleRandom` and `sampleKey`. -/
theorem encrypt_leaves_argument_unchanged_witness :
    Heap.read [sampleData] 0 = some sampleData ∧
    ∃ obj heap', KeyRing.encryptInHeap binaryHost sampleRandom [sampleData] 0 sampleKey
        = .ok (obj, heap') ∧
      Heap.read heap' 0 = some sampleData ∧ obj ≠ 0 :=
  ⟨rfl, _, _, rfl,
    ((encrypt_leaves_argument_unchanged binaryHost sampleRandom [sampleData] 0 sampleKey
      sampleData rfl).2 _ _ rfl).1,
    ((encrypt_leaves_argument_unchanged binaryHost sampleRandom [sampleData] 0 sampleKey
      sampleData rfl).2 _ _ rfl).2.1⟩

/-- C15. Credential concatenation is not injective.  The triples (`ab`, `c`,
password) and (`a`, `bc`, password) are different and give, for every password,
every library and every stored record, the same key and the same outcome of the
sign-in flow; in general the key depends only on the concatenation of the three
strings. -/
theorem credential_concatenation_not_injective (host : Host) (password : JSString)
    (stored : Option Obj) :
    (js "ab", js "c", password) ≠ (js "a", js "bc", password) ∧
    sessionKey host (js "ab") (js "c") password = sessionKey host (js "a") (js "bc") password ∧
    processAuthorization host (js "ab") (js "c") password stored
      = processAuthorization host (js "a") (js "bc") password stored ∧
    (∀ uid email password uid' email' password' : JSString,
      (uid ++ email) ++ password = (uid' ++ email') ++ password' →
        sessionKey host uid email password = sessionKey host uid' email' password') := by
  refine ⟨?_, rfl, rfl, ?_⟩
  · intro h
    have h1 := (Prod.mk.inj h).1
    revert h1
    decide
  · intro uid email password uid' email' password' h
    unfold sessionKey
    rw [h]

/-- C15 at a concrete input: the two triples of the claim with the password
`password1`, under `binaryHost`. -/
theorem credential_concatenation_not_injective_witness :
    (js "ab" ++ js "c") ++ js "password1" = (js "a" ++ js "bc") ++ js "password1" ∧
    sessionKey binaryHost (js "ab") (js "c") (js "password1")
      = sessionKey binaryHost (js "a") (js "bc") (js "password1") :=
  ⟨rfl, (credential_concatenation_not_injective binaryHost (js "password1") none).2.2.2
    (js "ab") (js "c") (js "password1") (js "a") (js "bc") (js "password1") rfl⟩

end KeyringJS
